import Mathlib

/-!
# Verification of the nitox NATS client core

Shallow embedding of the nitox sources (protocol model, frame codec,
client send/subscribe paths, connection state machine) and proofs of the
frozen claims about the repository.

Conventions of the embedding:

* Rust byte buffers (`Bytes`, `BytesMut`, `&[u8]`) are `List Nat`, each
  element standing for one byte.  Rust `String`/`&str` fields of the
  protocol structs are byte lists as well (the UTF-8 encoding of the
  string); `std::str::from_utf8` validation is not modelled, so theorems
  that quantify over token contents restrict them to ASCII bytes, on
  which `from_utf8` is the identity and never fails.
* Machine integers (`u32`, `usize`) become `Nat`; theorems add explicit
  bounds (`< 2 ^ 64`, `< 2 ^ 32`) where a Rust parse or field width is
  relevant.
* `serde_json` is an external crate: the JSON bodies of INFO and CONNECT
  are not modelled at the byte level.  `Op.from_bytes` maps those two
  command names to the distinguished error `CommandError.jsonUnmodelled`,
  and no theorem quantifies over INFO/CONNECT frames.
* Fallible Rust functions returning `Result<T, E>` become
  `Except E T`-valued Lean functions.
-/

namespace Nitox

/-- Byte strings (`bytes::Bytes` / `&[u8]`): lists of byte values. -/
abbrev ByteStr := List Nat

/-- Whitespace test used by `OpCodec::decode` when scanning for the end of
the command name: `b' '`, `b'\t'` or `b'\r'` (src/codec.rs line 50). -/
def isWsByte (b : Nat) : Bool := b == 32 || b == 9 || b == 13

/-- Separator test of `slice::split(|c| *c == b' ' || *c == b'\t')` used by
the PUB/MSG/UNSUB parsers. -/
def isSepByte (b : Nat) : Bool := b == 32 || b == 9

/-- Whitespace test of `str::split_whitespace` used by the SUB parser,
restricted to the ASCII whitespace characters. -/
def isStrWsByte (b : Nat) : Bool := b == 32 || b == 9 || b == 13 || b == 10

/-- ASCII decimal digit test. -/
def isDigitByte (b : Nat) : Bool := 48 ≤ b && b ≤ 57

/-- Index of the first byte satisfying `p` (`iter().position(p)`). -/
def findByte (p : Nat → Bool) : ByteStr → Option Nat
  | [] => none
  | b :: t => if p b then some 0 else (findByte p t).map (· + 1)

/-- Index of the start of the first `\r\n` pair
(`windows(2).position(|w| w == b"\r\n")`). -/
def findCrlf : ByteStr → Option Nat
  | [] => none
  | [_] => none
  | a :: b :: t =>
    if a = 13 ∧ b = 10 then some 0 else (findCrlf (b :: t)).map (· + 1)

/-- Index of the first `\r\n` pair at or after absolute position `s`. -/
def findCrlfFrom (buf : ByteStr) (s : Nat) : Option Nat :=
  (findCrlf (buf.drop s)).map (s + ·)

/-- Index of the first byte satisfying `p` at or after absolute position
`ni` (`buf[ni..].iter().position(p)` shifted back to an absolute index). -/
def findByteFrom (p : Nat → Bool) (buf : ByteStr) (ni : Nat) : Option Nat :=
  (findByte p (buf.drop ni)).map (ni + ·)

/-- Rust `slice::split` on a separator predicate: consecutive separators
produce empty sub-slices, and the empty slice yields one empty sub-slice. -/
def splitSep (p : Nat → Bool) : ByteStr → List ByteStr
  | [] => [[]]
  | c :: t =>
    if p c then [] :: splitSep p t
    else
      match splitSep p t with
      | [] => [[c]]
      | h :: r => (c :: h) :: r

/-- Accumulator worker for `str::split_whitespace`: `acc` holds the bytes of
the current token in reverse. -/
def splitWsAux : ByteStr → ByteStr → List ByteStr
  | acc, [] => if acc = [] then [] else [acc.reverse]
  | acc, c :: t =>
    if isStrWsByte c then
      if acc = [] then splitWsAux [] t else acc.reverse :: splitWsAux [] t
    else splitWsAux (c :: acc) t

/-- `str::split_whitespace`: tokens separated by runs of whitespace, no empty
tokens. -/
def splitWs (l : ByteStr) : List ByteStr := splitWsAux [] l

/-- Fuel-driven worker for decimal rendering: most-significant digits
first.  The fuel only bounds the recursion (any fuel at least `n` gives
the digits of `n`); structural recursion keeps the definition
kernel-reducible. -/
def natToBytesAux : Nat → Nat → ByteStr
  | 0, _ => []
  | fuel + 1, n =>
    if n = 0 then [] else natToBytesAux fuel (n / 10) ++ [n % 10 + 48]

/-- ASCII decimal rendering of a `Nat`, as produced by Rust's
`usize::to_string` / `u32::to_string`. -/
def natToBytes (n : Nat) : ByteStr :=
  if n = 0 then [48] else natToBytesAux n n

/-- Rust `str::parse::<usize>` / `parse::<u32>` on a byte token, restricted
to plain decimal digit strings (the optional leading `+` sign and the
integer-width overflow check of the Rust parser are not modelled; theorems
bound the quantified numbers accordingly). -/
def parseNat (l : ByteStr) : Option Nat :=
  if l ≠ [] ∧ l.all isDigitByte then
    some (l.foldl (fun a d => a * 10 + (d - 48)) 0)
  else none

/-! ## Protocol data model (src/protocol) -/

/-- Errors of the protocol layer (src/protocol/error.rs `CommandError`).
The JSON, validation, UTF-8 and parse-int variants carry their causes in
Rust; the causes are dropped here.  `jsonUnmodelled` is an artefact of the
embedding: it stands for the outcome of the un-modelled `serde_json`
parsing of INFO/CONNECT bodies (which the real code reports as success or
as `JsonError`). -/
inductive CommandError where
  | jsonError
  | validationError
  | incompleteCommandError
  | commandNotFoundOrSupported
  | commandMalformed
  | utf8SliceError
  | utf8StringError
  | payloadLengthParseError
  | genericError
  | jsonUnmodelled
  deriving Repr, DecidableEq

/-- src/protocol/client/pub_cmd.rs `PubCommand`. -/
structure PubCommand where
  subject : ByteStr
  reply_to : Option ByteStr
  payload : ByteStr
  deriving Repr, DecidableEq

/-- src/protocol/client/sub_cmd.rs `SubCommand`. -/
structure SubCommand where
  subject : ByteStr
  queue_group : Option ByteStr
  sid : ByteStr
  deriving Repr, DecidableEq

/-- src/protocol/client/unsub_cmd.rs `UnsubCommand` (`max_msgs : Option<u32>`). -/
structure UnsubCommand where
  sid : ByteStr
  max_msgs : Option Nat
  deriving Repr, DecidableEq

/-- src/protocol/server/message.rs `Message`. -/
structure Message where
  subject : ByteStr
  sid : ByteStr
  reply_to : Option ByteStr
  payload : ByteStr
  deriving Repr, DecidableEq

/-- src/protocol/server/info.rs `ServerInfo` (`port`, `max_payload` are
`u32`, `client_id` is `u64`). Only `max_payload` is read by the client
paths modelled below. -/
structure ServerInfo where
  server_id : ByteStr
  version : ByteStr
  go : ByteStr
  host : ByteStr
  port : Nat
  max_payload : Nat
  proto : Option Nat
  client_id : Option Nat
  auth_required : Option Bool
  tls_required : Option Bool
  tls_verify : Option Bool
  connect_urls : Option (List ByteStr)
  deriving Repr, DecidableEq

/-- src/protocol/server/server_error.rs `ServerError`: a wrapped string. -/
structure ServerError where
  msg : ByteStr
  deriving Repr, DecidableEq

/-- src/protocol/op.rs `Op`.  The INFO and CONNECT variants are omitted
from the embedding because their bodies are (de)serialized by the external
`serde_json` crate; `Op.from_bytes` maps their command names to
`CommandError.jsonUnmodelled`, and no theorem mentions them. -/
inductive Op where
  | PUB (cmd : PubCommand)
  | SUB (cmd : SubCommand)
  | UNSUB (cmd : UnsubCommand)
  | MSG (msg : Message)
  | PING
  | PONG
  | OK
  | ERR (err : ServerError)
  deriving Repr, DecidableEq

/-- Bytes of `"PUB"`. -/
def pubName : ByteStr := [80, 85, 66]
/-- Bytes of `"SUB"`. -/
def subName : ByteStr := [83, 85, 66]
/-- Bytes of `"UNSUB"`. -/
def unsubName : ByteStr := [85, 78, 83, 85, 66]
/-- Bytes of `"MSG"`. -/
def msgName : ByteStr := [77, 83, 71]
/-- Bytes of `"INFO"`. -/
def infoName : ByteStr := [73, 78, 70, 79]
/-- Bytes of `"CONNECT"`. -/
def connectName : ByteStr := [67, 79, 78, 78, 69, 67, 84]
/-- Bytes of `"PING"`. -/
def pingName : ByteStr := [80, 73, 78, 71]
/-- Bytes of `"PONG"`. -/
def pongName : ByteStr := [80, 79, 78, 71]
/-- Bytes of `"+OK"`. -/
def okName : ByteStr := [43, 79, 75]
/-- Bytes of `"-ERR"`. -/
def errName : ByteStr := [45, 69, 82, 82]
/-- Bytes of `"\r\n"`. -/
def crlf : ByteStr := [13, 10]

/-- `"PING\r\n"`. -/
def pingBytes : ByteStr := pingName ++ crlf
/-- `"PONG\r\n"`. -/
def pongBytes : ByteStr := pongName ++ crlf
/-- `"+OK\r\n"`. -/
def okBytes : ByteStr := okName ++ crlf

/-! ## Encoders (`into_vec` / `into_bytes`) -/

/-- src/protocol/client/pub_cmd.rs `PubCommand::into_vec`:
`PUB\t<subject>[\t<reply_to>]\t<len>\r\n<payload>\r\n`.  The `rt_len > 0`
gate of the source holds exactly when `reply_to` is `Some` (even for an
empty reply string, since `rt_len = rp.len() + 1`); the `size_len`
computation is only a capacity reservation and does not affect the bytes. -/
def PubCommand.into_vec (c : PubCommand) : ByteStr :=
  pubName ++ [9] ++ c.subject ++
    (match c.reply_to with | some r => 9 :: r | none => []) ++
    [9] ++ natToBytes c.payload.length ++ crlf ++ c.payload ++ crlf

/-- src/protocol/server/message.rs `Message::into_vec`:
`MSG\t<subject>\t<sid>[\t<reply_to>]\t<len>\r\n<payload>\r\n`. -/
def Message.into_vec (c : Message) : ByteStr :=
  msgName ++ [9] ++ c.subject ++ [9] ++ c.sid ++
    (match c.reply_to with | some r => 9 :: r | none => []) ++
    [9] ++ natToBytes c.payload.length ++ crlf ++ c.payload ++ crlf

/-- src/protocol/client/sub_cmd.rs `SubCommand::into_vec`:
`SUB\t<subject>[\t<queue_group>]\t<sid>\r\n`. -/
def SubCommand.into_vec (c : SubCommand) : ByteStr :=
  subName ++ [9] ++ c.subject ++
    (match c.queue_group with | some qg => 9 :: qg | none => []) ++
    [9] ++ c.sid ++ crlf

/-- src/protocol/client/unsub_cmd.rs `UnsubCommand::into_vec`:
`UNSUB\t<sid>[\t<max>]\r\n`.  The `mm_len > 0` gate of the source holds
exactly when `max_msgs` is `Some` (the `ceil((mm+1)/ln 10)` capacity
estimate is at least 1 for every `u32`). -/
def UnsubCommand.into_vec (c : UnsubCommand) : ByteStr :=
  unsubName ++ [9] ++ c.sid ++
    (match c.max_msgs with | some mm => 9 :: natToBytes mm | none => []) ++ crlf

/-- Display of `ServerError` (src/protocol/server/server_error.rs):
`f.debug_tuple("ServerError")` renders as `ServerError("<msg>")`.  Rust's
`Debug` escaping of quotes, backslashes and control characters inside the
message is not modelled; no theorem relies on this encoder. -/
def ServerError.display (e : ServerError) : ByteStr :=
  [83, 101, 114, 118, 101, 114, 69, 114, 114, 111, 114, 40, 34] ++
    e.msg ++ [34, 41]

/-- src/protocol/op.rs `Op::into_bytes`.  On the modelled variants the
Rust function always returns `Ok`, so the embedding is total. -/
def Op.into_bytes : Op → ByteStr
  | .PUB c => c.into_vec
  | .SUB c => c.into_vec
  | .UNSUB c => c.into_vec
  | .MSG m => m.into_vec
  | .PING => pingBytes
  | .PONG => pongBytes
  | .OK => okBytes
  | .ERR e => errName ++ [32] ++ e.display ++ crlf

/-! ## Parsers (`try_parse` / `from_bytes`)

The PUB/MSG/UNSUB parsers walk a `split` iterator with `next`/`next_back`;
the embedding mirrors this with head/last operations on the token list.
`std::str::from_utf8` conversions are the identity here (see the header
note); accordingly a non-digit length token yields
`payloadLengthParseError` where Rust may distinguish a UTF-8 error. -/

/-- src/protocol/client/pub_cmd.rs `PubCommand::try_parse`. -/
def PubCommand.try_parse (buf : ByteStr) : Except CommandError PubCommand :=
  let len := buf.length
  if buf.drop (len - 2) ≠ crlf then .error .incompleteCommandError
  else
    match findByte (· == 13) (buf.take (len - 2)) with
    | none => .error .commandMalformed
    | some ps =>
      if buf[ps + 1]? ≠ some 10 then .error .commandMalformed
      else
        let payload := (buf.take (len - 2)).drop (ps + 2)
        match splitSep isSepByte (buf.take ps) with
        | [] => .error .commandMalformed
        | cmd :: rest =>
          if cmd ≠ pubName then .error .commandMalformed
          else
            match rest.getLast? with
            | none => .error .commandMalformed
            | some plenTok =>
              match parseNat plenTok with
              | none => .error .payloadLengthParseError
              | some plen =>
                if payload.length ≠ plen then .error .commandMalformed
                else
                  match rest.dropLast with
                  | [] => .error .commandMalformed
                  | subject :: more => .ok ⟨subject, more.head?, payload⟩

/-- src/protocol/server/message.rs `Message::try_parse`. -/
def Message.try_parse (buf : ByteStr) : Except CommandError Message :=
  let len := buf.length
  if buf.drop (len - 2) ≠ crlf then .error .incompleteCommandError
  else
    match findByte (· == 13) (buf.take (len - 2)) with
    | none => .error .commandMalformed
    | some ps =>
      if buf[ps + 1]? ≠ some 10 then .error .commandMalformed
      else
        let payload := (buf.take (len - 2)).drop (ps + 2)
        match splitSep isSepByte (buf.take ps) with
        | [] => .error .commandMalformed
        | cmd :: rest =>
          if cmd ≠ msgName then .error .commandMalformed
          else
            match rest.getLast? with
            | none => .error .commandMalformed
            | some plenTok =>
              match parseNat plenTok with
              | none => .error .payloadLengthParseError
              | some plen =>
                if payload.length ≠ plen then .error .commandMalformed
                else
                  match rest.dropLast with
                  | [] => .error .commandMalformed
                  | [_] => .error .commandMalformed
                  | subject :: sid :: more => .ok ⟨subject, sid, more.head?, payload⟩

/-- src/protocol/client/sub_cmd.rs `SubCommand::try_parse`: the header is
tokenised by `str::split_whitespace`, then `subject = next()`,
`sid = next_back()`, `queue_group = next()`. -/
def SubCommand.try_parse (buf : ByteStr) : Except CommandError SubCommand :=
  let len := buf.length
  if buf.drop (len - 2) ≠ crlf then .error .incompleteCommandError
  else
    match splitWs (buf.take (len - 2)) with
    | [] => .error .commandMalformed
    | cmd :: rest =>
      if cmd ≠ subName then .error .commandMalformed
      else
        match rest with
        | [] => .error .commandMalformed
        | subject :: rest2 =>
          match rest2.getLast? with
          | none => .error .commandMalformed
          | some sid => .ok ⟨subject, rest2.dropLast.head?, sid⟩

/-- src/protocol/client/unsub_cmd.rs `UnsubCommand::try_parse`. -/
def UnsubCommand.try_parse (buf : ByteStr) : Except CommandError UnsubCommand :=
  let len := buf.length
  if buf.drop (len - 2) ≠ crlf then .error .incompleteCommandError
  else
    match splitSep isSepByte (buf.take (len - 2)) with
    | [] => .error .commandMalformed
    | cmd :: rest =>
      if cmd ≠ unsubName then .error .commandMalformed
      else
        match rest with
        | [] => .error .commandMalformed
        | sid :: rest2 =>
          match rest2.head? with
          | none => .ok ⟨sid, none⟩
          | some tok =>
            match parseNat tok with
            | none => .error .payloadLengthParseError
            | some mm => .ok ⟨sid, some mm⟩

/-- src/protocol/op.rs `Op::command_exists`. -/
def Op.command_exists (cmd_name : ByteStr) : Bool :=
  cmd_name = infoName ∨ cmd_name = connectName ∨ cmd_name = msgName ∨
    cmd_name = pubName ∨ cmd_name = subName ∨ cmd_name = unsubName ∨
    cmd_name = pingName ∨ cmd_name = pongName ∨ cmd_name = okName ∨
    cmd_name = errName

/-- src/protocol/op.rs `Op::from_bytes`: dispatch on the command name
`buf[..cmd_idx]`.  INFO and CONNECT go to the un-modelled `serde_json`
layer (see `CommandError.jsonUnmodelled`); the `-ERR` arm wraps
`buf[1..]` — including the leading `ERR ` text and the trailing CRLF —
in a `ServerError`. -/
def Op.from_bytes (buf : ByteStr) (cmd_idx : Nat) : Except CommandError Op :=
  let cmd_name := buf.take cmd_idx
  if cmd_name = infoName then .error .jsonUnmodelled
  else if cmd_name = connectName then .error .jsonUnmodelled
  else if cmd_name = msgName then (Message.try_parse buf).map Op.MSG
  else if cmd_name = pubName then (PubCommand.try_parse buf).map Op.PUB
  else if cmd_name = subName then (SubCommand.try_parse buf).map Op.SUB
  else if cmd_name = unsubName then (UnsubCommand.try_parse buf).map Op.UNSUB
  else if cmd_name = pingName then
    if buf = pingBytes then .ok .PING else .error .incompleteCommandError
  else if cmd_name = pongName then
    if buf = pongBytes then .ok .PONG else .error .incompleteCommandError
  else if cmd_name = okName then
    if buf = okBytes then .ok .OK else .error .incompleteCommandError
  else if cmd_name = errName then
    if buf.drop (buf.length - 2) = crlf then .ok (.ERR ⟨buf.drop 1⟩)
    else .error .incompleteCommandError
  else if buf.length > 7 then .error .commandNotFoundOrSupported
  else .error .incompleteCommandError

/-! ## Frame codec (src/codec.rs) -/

/-- Codec state: the `next_index` scan-resume cursor. -/
structure OpCodec where
  next_index : Nat
  deriving Repr, DecidableEq

/-- Outcome of one `Decoder::decode` call: `Ok(None)` (need more bytes),
`Ok(Some(op))`, or `Err(e)` (the Rust code wraps `e` into
`NatsError::ProtocolError`; the wrapper is dropped here). -/
inductive DecodeOut where
  | needMore
  | item (op : Op)
  | fail (e : CommandError)
  deriving Repr, DecidableEq

/-- Result of the frame-boundary scan, steps 1–5 of `OpCodec::decode`:
either the frame is incomplete (with the updated `next_index` to store),
or a complete frame of `ep` bytes whose command name ends at `ce`. -/
inductive ScanRes where
  | needMore (ni : Nat)
  | frame (ce ep : Nat)
  deriving Repr, DecidableEq

/-- Frame-boundary scan of `OpCodec::decode` (src/codec.rs lines 39–77):
empty-buffer check; first whitespace from `next_index` gives the command
name end; unknown names are deliberately permissive (`need more`); first
CRLF after the name ends the header; for PUB/MSG a second CRLF ends the
payload. -/
def OpCodec.scan (ni : Nat) (buf : ByteStr) : ScanRes :=
  if buf = [] then .needMore ni
  else
    match findByteFrom isWsByte buf ni with
    | none => .needMore buf.length
    | some ce =>
      if ¬ Op.command_exists (buf.take ce) then .needMore ni
      else
        match findCrlfFrom buf ce with
        | none => .needMore ni
        | some p =>
          if buf.take ce = pubName ∨ buf.take ce = msgName then
            match findCrlfFrom buf (p + 2) with
            | none => .needMore ni
            | some q => .frame ce (q + 2)
          else .frame ce (p + 2)

/-- src/codec.rs `OpCodec::decode`: scan for a frame; on success split the
frame off the front of the buffer, reset `next_index` to 0 and parse via
`Op::from_bytes`, propagating parse failures as errors (lines 78–91).
Returns the updated codec, the remaining buffer, and the outcome. -/
def OpCodec.decode (c : OpCodec) (buf : ByteStr) :
    OpCodec × ByteStr × DecodeOut :=
  match OpCodec.scan c.next_index buf with
  | .needMore ni => (⟨ni⟩, buf, .needMore)
  | .frame ce ep =>
    match Op.from_bytes (buf.take ep) ce with
    | .ok op => (⟨0⟩, buf.drop ep, .item op)
    | .error e => (⟨0⟩, buf.drop ep, .fail e)

/-- Feeding a byte stream to the codec in chunks: after each chunk is
appended to the input buffer, `decode` runs once; the outcomes are
collected in order.  This models `FramedRead` reading one socket chunk at
a time while at most one frame is in flight. -/
def OpCodec.feed (c : OpCodec) (buf : ByteStr) :
    List ByteStr → List DecodeOut
  | [] => []
  | ck :: cks =>
    let r := OpCodec.decode c (buf ++ ck)
    r.2.2 :: OpCodec.feed r.1 r.2.1 cks

/-! ## Client-level errors (src/error.rs) -/

/-- src/error.rs `NatsError`.  Variants that wrap foreign payloads
(`io::Error`, TLS/URL/address errors, strings) drop the payload here. -/
inductive NatsError where
  | commandBuildError
  | ioError
  | serverDisconnected
  | protocolError (e : CommandError)
  | utf8Error
  | tlsError
  | tlsHostMissingError
  | urlParseError
  | addrParseError
  | uriDNSResolveError
  | cannotReconnectToServer
  | innerBrokenChain
  | genericError
  | subscriptionReachedMaxMsgs (n : Nat)
  | maxPayloadOverflow (n : Nat)
  deriving Repr, DecidableEq

/-! ## Multiplexer subscription table (src/client/multiplexer.rs) -/

/-- `SubscriptionSink` without its channel sender: `max_count` and `count`
are `Option<u32>` / `u32`. -/
structure SubscriptionSink where
  max_count : Option Nat
  count : Nat
  deriving Repr, DecidableEq

/-- Association-list lookup (first match), modelling `HashMap::get`. -/
def alistGet {α : Type} (sid : ByteStr) : List (ByteStr × α) → Option α
  | [] => none
  | (k, v) :: t => if k = sid then some v else alistGet sid t

/-- Association-list insert with override semantics, modelling
`HashMap::insert` (the previous value, if any, is dropped). -/
def alistPut {α : Type} (sid : ByteStr) (v : α) (l : List (ByteStr × α)) :
    List (ByteStr × α) :=
  (sid, v) :: l.filter (fun kv => kv.1 ≠ sid)

/-- Association-list removal, modelling `HashMap::remove`. -/
def alistDrop {α : Type} (sid : ByteStr) (l : List (ByteStr × α)) :
    List (ByteStr × α) :=
  l.filter (fun kv => kv.1 ≠ sid)

/-! ## Client façade state (src/client/client.rs)

The `NatsClientSender` is an unbounded in-memory queue drained by a
background task (src/client.rs `NatsClientSender::new`); `send` enqueues
one `Op` and completes.  The embedding carries the queue contents
explicitly, so "no bytes are written" is "the queue is unchanged".  The
channel-closed failure mode of `unbounded_send` (`InnerBrokenChain`) is
not modelled: the queue is always accepting. -/

structure ClientState where
  server_info : Option ServerInfo
  sender_queue : List Op
  subs : List (ByteStr × SubscriptionSink)
  deriving Repr, DecidableEq

/-- src/client/client.rs `NatsClient::publish` (lines 171–180): if a
stored `ServerInfo` is present and the payload exceeds `max_payload`,
fail with `MaxPayloadOverflow(max_payload)` before touching the sender;
otherwise enqueue `Op::PUB`. -/
def NatsClient.publish (st : ClientState) (cmd : PubCommand) :
    ClientState × Option NatsError :=
  match st.server_info with
  | some si =>
    if cmd.payload.length > si.max_payload then
      (st, some (.maxPayloadOverflow si.max_payload))
    else
      ({ st with sender_queue := st.sender_queue ++ [Op.PUB cmd] }, none)
  | none => ({ st with sender_queue := st.sender_queue ++ [Op.PUB cmd] }, none)

/-- Ordered actions performed by `NatsClient::request` after its payload
check: the inbox subscription is registered in the multiplexer
(`for_sid`, executed when `request` runs), then the three sends are
chained with `and_then` so each is enqueued after the previous send
future completes. -/
inductive ReqAction where
  | register (sid : ByteStr)
  | enqueue (op : Op)
  deriving Repr, DecidableEq

/-- The post-check body of `NatsClient::request`: register the inbox SID
in the multiplexer (`for_sid`), then send `SUB inbox sid`,
`UNSUB sid max=1`, `PUB subject reply_to=inbox`, in that order (the three
send futures are chained with `and_then`). -/
def NatsClient.requestGo (st : ClientState)
    (subject payload inbox sid : ByteStr) :
    ClientState × Option NatsError × List ReqAction :=
  let subCmd : SubCommand := ⟨inbox, none, sid⟩
  let unsubCmd : UnsubCommand := ⟨sid, some 1⟩
  let pubCmd : PubCommand := ⟨subject, some inbox, payload⟩
  let ops : List Op := [Op.SUB subCmd, Op.UNSUB unsubCmd, Op.PUB pubCmd]
  ({ st with
      subs := alistPut sid ⟨none, 0⟩ st.subs,
      sender_queue := st.sender_queue ++ ops },
    none,
    ReqAction.register sid :: ops.map ReqAction.enqueue)

/-- src/client/client.rs `NatsClient::request` (lines 244–301) up to the
reply future.  The randomly generated inbox and SID
(`PubCommand::generate_reply_to`, `SubCommand::generate_sid`) are taken
as parameters.  Returns the new state, the immediate error if any, and
the action trace in execution order. -/
def NatsClient.request (st : ClientState) (subject payload inbox sid : ByteStr) :
    ClientState × Option NatsError × List ReqAction :=
  match st.server_info with
  | some si =>
    if payload.length > si.max_payload then
      (st, some (.maxPayloadOverflow si.max_payload), [])
    else NatsClient.requestGo st subject payload inbox sid
  | none => NatsClient.requestGo st subject payload inbox sid

/-- Outcome of the reply future returned by `request`:
`.take(1).into_future().map(|(m, _)| m.unwrap())` panics when the inbox
stream ends before yielding a message, and otherwise completes with the
first message. -/
inductive ReplyOutcome where
  | panicked
  | completed (m : Message)
  deriving Repr, DecidableEq

/-- Completion of the reply future of `request` (src/client/client.rs
lines 279–292), given the list of messages the inbox channel yields
before closing: an empty stream hits `surely_message.unwrap()` on `None`
and panics (so `remove_sid` is not reached); otherwise the first message
is returned after `remove_sid(sid)`. -/
def NatsClient.request_reply (sid : ByteStr) (delivered : List Message)
    (st : ClientState) : ReplyOutcome × ClientState :=
  match delivered with
  | [] => (.panicked, st)
  | m :: _ => (.completed m, { st with subs := alistDrop sid st.subs })

/-! ## Per-subscription lifecycle machine (C2/C6)

State of one SID `s` across the three code paths that touch it:

* `route`: the multiplexer task's `Op::MSG` arm
  (src/client/multiplexer.rs lines 40–48) — enqueue onto the sink's
  unbounded channel when the table has `s`, silently drop otherwise;
* `unsub`: `NatsClient::unsubscribe` (src/client/client.rs lines
  183–202) — with `max_msgs` and a live sink, record `max_count`;
  otherwise remove the SID;
* `consume`: one poll of the consumer stream built by
  `NatsClient::subscribe` (lines 212–237) — pop the channel; in the
  `and_then` wrapper, if the table still has `s` and `max_count` is set,
  increment `count` and remove the entry once `count ≥ max_count`; the
  popped message is delivered either way (`Ok(msg)`).

`present = false` means the table entry (and with it the channel's
sender) is gone: the channel still drains `queue`, then the stream ends.
The stream's error type admits errors (`rx.map_err(InnerBrokenChain)`),
but no transition produces one — in particular nothing in the code
constructs `SubscriptionReachedMaxMsgs`. -/

structure SubState where
  present : Bool
  max_count : Option Nat
  count : Nat
  queue : List Message
  deriving Repr, DecidableEq

/-- Events touching one subscription. -/
inductive SubEv where
  | route (m : Message)
  | unsub (mm : Option Nat)
  | consume
  deriving Repr, DecidableEq

/-- Observable outcome of one event, as seen by the consumer stream. -/
inductive SubOut where
  | delivered (m : Message)
  | pending
  | ended
  | errored (e : NatsError)
  | silent
  deriving Repr, DecidableEq

/-- One step of the subscription machine. -/
def SubState.step (s : SubState) : SubEv → SubState × SubOut
  | .route m =>
    if s.present then ({ s with queue := s.queue ++ [m] }, .silent)
    else (s, .silent)
  | .unsub mm =>
    match mm with
    | some n =>
      if s.present then ({ s with max_count := some n }, .silent)
      else ({ s with present := false }, .silent)
    | none => ({ s with present := false }, .silent)
  | .consume =>
    match s.queue with
    | [] => (s, if s.present then .pending else .ended)
    | m :: rest =>
      let s1 := { s with queue := rest }
      if s1.present then
        match s1.max_count with
        | some mc =>
          let c1 := s1.count + 1
          if c1 ≥ mc then
            ({ s1 with count := c1, present := false }, .delivered m)
          else ({ s1 with count := c1 }, .delivered m)
        | none => (s1, .delivered m)
      else (s1, .delivered m)

/-- Run a list of events, collecting the outcomes. -/
def SubState.run (s : SubState) : List SubEv → SubState × List SubOut
  | [] => (s, [])
  | ev :: evs =>
    let r := s.step ev
    let rest := r.1.run evs
    (rest.1, r.2 :: rest.2)

/-- Fresh sink state right after `subscribe` / `for_sid`. -/
def SubState.fresh : SubState := ⟨true, none, 0, []⟩

/-- Guard of one event for the amended C6 invariant: an `unsub (some n)`
event that finds a live sink must supply a cap `n` at least the sink's
current count; every other event is unrestricted. -/
def SubState.guard1 (s : SubState) : SubEv → Bool
  | .unsub (some n) => !s.present || decide (s.count ≤ n)
  | _ => true

/-- Guard for the amended C6 invariant, along a whole run. -/
def SubState.capGuard (s : SubState) : List SubEv → Bool
  | [] => true
  | ev :: evs => s.guard1 ev && SubState.capGuard (s.step ev).1 evs

/-! ## Multiplexer channel replacement (C9, src/client/multiplexer.rs
`for_sid` lines 63–75)

`for_sid` unconditionally inserts a fresh `SubscriptionSink` for the SID.
When the SID was already mapped, `HashMap::insert` drops the previous
sink, which drops its `mpsc::UnboundedSender`, closing the previous
channel.  Channels are modelled as an indexed pool: `sender_alive = false`
is the dropped-sender state (the consumer may still drain `queue`, after
which its stream completes). -/

structure Chan where
  queue : List Message
  sender_alive : Bool
  deriving Repr, DecidableEq

structure MuxSt where
  chans : List Chan
  tbl : List (ByteStr × Nat)
  deriving Repr, DecidableEq

/-- `NatsClientMultiplexer::for_sid`: create a fresh channel, close the
channel of any sink the insert replaces, and map the SID to the fresh
channel.  Returns the index of the fresh channel (its consuming half). -/
def MuxSt.for_sid (st : MuxSt) (sid : ByteStr) : MuxSt × Nat :=
  let idx := st.chans.length
  let chans1 := st.chans ++ [⟨[], true⟩]
  let chans2 :=
    match alistGet sid st.tbl with
    | some j =>
      match chans1[j]? with
      | some c => chans1.set j { c with sender_alive := false }
      | none => chans1
    | none => chans1
  ({ chans := chans2, tbl := alistPut sid idx st.tbl }, idx)

/-- The multiplexer task's `Op::MSG` arm: route a message to the channel
its SID currently maps to; unknown SIDs are dropped silently. -/
def MuxSt.route (st : MuxSt) (m : Message) : MuxSt :=
  match alistGet m.sid st.tbl with
  | some j =>
    match st.chans[j]? with
    | some c => { st with chans := st.chans.set j { c with queue := c.queue ++ [m] } }
    | none => st
  | none => st

/-! ## Connection state machine (C5, src/net/connection.rs) -/

/-- src/net/connection.rs `NatsConnectionState`. -/
inductive NatsConnectionState where
  | connected
  | reconnecting
  | disconnected
  deriving Repr, DecidableEq

/-- Outcome of one poll of the inner framed stream/sink, abstracting over
the item/readiness payloads: ready (with its value), not ready, a
disconnect-class error (`NatsError::ServerDisconnected`), or any other
error. -/
inductive IoRes where
  | ready
  | notReady
  | errDisconnected
  | errOther
  deriving Repr, DecidableEq

/-- Result of one call to a `NatsConnection` poll method: the value
returned to the caller plus whether a background reconnect was spawned
(the `reco!` macro). -/
structure ConnPollRes where
  res : IoRes
  reconnect_spawned : Bool
  deriving Repr, DecidableEq

/-- Shared body of `Sink::start_send`, `Sink::poll_complete` and
`Stream::poll` on `NatsConnection` (src/net/connection.rs lines 85–151):
if the state lock cannot be read (`state_lock = none`) or the phase is
not `Connected`, return not-ready; if the inner lock cannot be taken,
return not-ready; otherwise forward the inner result, turning a
disconnect-class error into not-ready plus a spawned reconnect. -/
def NatsConnection.guardedPoll (state_lock : Option NatsConnectionState)
    (inner_lock : Bool) (inner : IoRes) : ConnPollRes :=
  let blocked :=
    match state_lock with
    | some st => decide (st ≠ NatsConnectionState.connected)
    | none => true
  if blocked then ⟨.notReady, false⟩
  else if inner_lock then
    match inner with
    | .errDisconnected => ⟨.notReady, true⟩
    | r => ⟨r, false⟩
  else ⟨.notReady, false⟩

/-- `Sink::start_send` for `NatsConnection` (lines 88–106). -/
def NatsConnection.start_send (state_lock : Option NatsConnectionState)
    (inner_lock : Bool) (inner : IoRes) : ConnPollRes :=
  NatsConnection.guardedPoll state_lock inner_lock inner

/-- `Sink::poll_complete` for `NatsConnection` (lines 108–125). -/
def NatsConnection.poll_complete (state_lock : Option NatsConnectionState)
    (inner_lock : Bool) (inner : IoRes) : ConnPollRes :=
  NatsConnection.guardedPoll state_lock inner_lock inner

/-- `Stream::poll` for `NatsConnection` (lines 132–151). -/
def NatsConnection.poll (state_lock : Option NatsConnectionState)
    (inner_lock : Bool) (inner : IoRes) : ConnPollRes :=
  NatsConnection.guardedPoll state_lock inner_lock inner

/-! ## Explicit PUB/MSG frames with an arbitrary declared length -/

/-- A complete PUB frame whose declared payload-length field is
`declared`, which need not match the actual payload `p`:
`PUB\t<s>[\t<rt>]\t<declared>\r\n<p>\r\n` (same shape as
`PubCommand::into_vec`). -/
def mkPubFrame (s : ByteStr) (rt : Option ByteStr) (declared : Nat)
    (p : ByteStr) : ByteStr :=
  pubName ++ [9] ++ s ++
    (match rt with | some r => 9 :: r | none => []) ++
    [9] ++ natToBytes declared ++ crlf ++ p ++ crlf

/-- A complete MSG frame with an arbitrary declared payload length. -/
def mkMsgFrame (s sid : ByteStr) (rt : Option ByteStr) (declared : Nat)
    (p : ByteStr) : ByteStr :=
  msgName ++ [9] ++ s ++ [9] ++ sid ++
    (match rt with | some r => 9 :: r | none => []) ++
    [9] ++ natToBytes declared ++ crlf ++ p ++ crlf

/-! ## Well-formedness predicates for round-trip theorems -/

/-- A token byte that survives a round trip: ASCII (so `from_utf8` is the
identity) and none of space, tab, CR, LF (so no tokenizer splits inside
it and no scan stops early). -/
def goodTokByte (b : Nat) : Bool :=
  b < 128 && !(b == 32 || b == 9 || b == 13 || b == 10)

/-- A non-empty token of good bytes. -/
def goodTok (t : ByteStr) : Bool := !t.isEmpty && t.all goodTokByte

/-- An optional token: absent, or good. -/
def goodOptTok : Option ByteStr → Bool
  | none => true
  | some t => goodTok t

/-- No `\r\n` pair anywhere in the byte string. -/
def noCrlfIn (l : ByteStr) : Bool := (findCrlf l).isNone

/-- Commands within the proved round-trip fragment: the purely textual
variants with well-formed tokens; for PUB/MSG the payload must not embed
a CRLF pair (the codec cuts the frame at the first CRLF after the
header); `u32` fields stay in range; `-ERR` is excluded (parsing keeps
the `ERR ` prefix and the trailing CRLF, so it cannot round-trip). -/
def Op.goodForRoundtrip : Op → Bool
  | .PUB c => goodTok c.subject && goodOptTok c.reply_to && noCrlfIn c.payload
  | .MSG m => goodTok m.subject && goodTok m.sid && goodOptTok m.reply_to &&
      noCrlfIn m.payload
  | .SUB c => goodTok c.subject && goodOptTok c.queue_group && goodTok c.sid
  | .UNSUB c => goodTok c.sid &&
      (match c.max_msgs with
        | some mm => decide (mm < 2 ^ 32)
        | none => true)
  | .PING => true
  | .PONG => true
  | .OK => true
  | .ERR _ => false

/-! ## Theorems -/

/-- C3: with a stored `ServerInfo` advertising `max_payload = X`, a
`publish` or `request` whose payload is longer than `X` bytes fails with
`MaxPayloadOverflow(X)` and leaves the client state — in particular the
sender queue — untouched: nothing is enqueued, so no bytes reach the
socket from that call. -/
theorem c3_max_payload_guard (st : ClientState) (si : ServerInfo)
    (cmd : PubCommand) (subject payload inbox sid : ByteStr)
    (hsi : st.server_info = some si)
    (hpub : cmd.payload.length > si.max_payload)
    (hreq : payload.length > si.max_payload) :
    NatsClient.publish st cmd = (st, some (.maxPayloadOverflow si.max_payload)) ∧
    NatsClient.request st subject payload inbox sid =
      (st, some (.maxPayloadOverflow si.max_payload), []) := by
  constructor
  · simp [NatsClient.publish, hsi, hpub]
  · simp [NatsClient.request, hsi, hreq]

/-- Witness for C3 at a concrete client whose server advertises
`max_payload = 4` and a 5-byte payload. -/
theorem c3_max_payload_guard_witness :
    (ClientState.mk (some ⟨[], [], [], [], 4222, 4, none, none, none, none,
        none, none⟩) [] []).server_info =
      some ⟨[], [], [], [], 4222, 4, none, none, none, none, none, none⟩ ∧
    (PubCommand.mk [102] none [1, 2, 3, 4, 5]).payload.length > 4 ∧
    NatsClient.publish
      (ClientState.mk (some ⟨[], [], [], [], 4222, 4, none, none, none, none,
        none, none⟩) [] [])
      (PubCommand.mk [102] none [1, 2, 3, 4, 5]) =
      (ClientState.mk (some ⟨[], [], [], [], 4222, 4, none, none, none, none,
        none, none⟩) [] [], some (.maxPayloadOverflow 4)) ∧
    NatsClient.request
      (ClientState.mk (some ⟨[], [], [], [], 4222, 4, none, none, none, none,
        none, none⟩) [] []) [102] [1, 2, 3, 4, 5] [105] [115] =
      (ClientState.mk (some ⟨[], [], [], [], 4222, 4, none, none, none, none,
        none, none⟩) [] [], some (.maxPayloadOverflow 4), []) := by
  refine ⟨rfl, by decide, ?_⟩
  exact c3_max_payload_guard
    (ClientState.mk (some ⟨[], [], [], [], 4222, 4, none, none, none, none,
      none, none⟩) [] [])
    ⟨[], [], [], [], 4222, 4, none, none, none, none, none, none⟩
    (PubCommand.mk [102] none [1, 2, 3, 4, 5]) [102] [1, 2, 3, 4, 5]
    [105] [115] rfl (by decide) (by decide)

/-- C5: while the connection phase is not `Connected`, every write attempt
(`start_send`, `poll_complete`) and every read attempt (`poll`) returns
not-ready — no error is returned and no reconnect is spawned — whatever
the inner stream would have done. -/
theorem c5_not_connected_not_ready (st : NatsConnectionState)
    (il : Bool) (inner : IoRes) (h : st ≠ .connected) :
    NatsConnection.start_send (some st) il inner = ⟨.notReady, false⟩ ∧
    NatsConnection.poll_complete (some st) il inner = ⟨.notReady, false⟩ ∧
    NatsConnection.poll (some st) il inner = ⟨.notReady, false⟩ := by
  refine ⟨?_, ?_, ?_⟩ <;>
    first
    | simp [NatsConnection.start_send, NatsConnection.poll_complete,
        NatsConnection.poll, NatsConnection.guardedPoll, h]

/-- Witness for C5 in the `Reconnecting` phase, with the inner stream
about to report a non-disconnect error. -/
theorem c5_not_connected_not_ready_witness :
    NatsConnectionState.reconnecting ≠ .connected ∧
    NatsConnection.start_send (some .reconnecting) true .errOther =
      ⟨.notReady, false⟩ ∧
    NatsConnection.poll_complete (some .reconnecting) true .errOther =
      ⟨.notReady, false⟩ ∧
    NatsConnection.poll (some .reconnecting) true .errOther =
      ⟨.notReady, false⟩ := by
  refine ⟨by decide, ?_⟩
  exact c5_not_connected_not_ready .reconnecting true .errOther (by decide)

/-- C10: the reply future of `request` unwraps the first element of the
inbox stream, so when the inbox channel closes before any message is
delivered it panics (it does not return an error, and the SID is not
removed), and it returns normally — with the first message, then
deregistering the SID — exactly when at least one message arrives. -/
theorem c10_request_unwrap (st : ClientState) (sid : ByteStr)
    (m : Message) (ms : List Message) :
    NatsClient.request_reply sid [] st = (.panicked, st) ∧
    NatsClient.request_reply sid (m :: ms) st =
      (.completed m, { st with subs := alistDrop sid st.subs }) :=
  ⟨rfl, rfl⟩

/-- C8: within the payload cap, `request` registers the fresh inbox SID in
the multiplexer and then enqueues, sequentially and in this order, SUB
for the inbox, UNSUB for that SID with `max_msgs = 1`, and PUB for the
original subject with `reply_to` set to the inbox; the reply future
yields the first message delivered on the inbox and then removes the SID. -/
theorem c8_request_sequence (st : ClientState)
    (subject payload inbox sid : ByteStr)
    (hfit : ∀ si, st.server_info = some si →
      payload.length ≤ si.max_payload) :
    NatsClient.request st subject payload inbox sid =
      ({ st with
          subs := alistPut sid ⟨none, 0⟩ st.subs,
          sender_queue := st.sender_queue ++
            [Op.SUB ⟨inbox, none, sid⟩, Op.UNSUB ⟨sid, some 1⟩,
             Op.PUB ⟨subject, some inbox, payload⟩] },
        none,
        [ReqAction.register sid, .enqueue (Op.SUB ⟨inbox, none, sid⟩),
         .enqueue (Op.UNSUB ⟨sid, some 1⟩),
         .enqueue (Op.PUB ⟨subject, some inbox, payload⟩)]) ∧
    (∀ (m : Message) (ms : List Message) (st2 : ClientState),
      NatsClient.request_reply sid (m :: ms) st2 =
        (.completed m, { st2 with subs := alistDrop sid st2.subs })) := by
  constructor
  · cases h : st.server_info with
    | none => simp [NatsClient.request, NatsClient.requestGo, h]
    | some si =>
      have hle := hfit si h
      simp [NatsClient.request, NatsClient.requestGo, h, Nat.not_lt.mpr hle]
  · intro m ms st2
    rfl

/-- Witness for C8: a client with no stored `ServerInfo` performing a
request on subject `"f"` with a fresh inbox `"i"` and SID `"s"`. -/
theorem c8_request_sequence_witness :
    (∀ si, (ClientState.mk none [] []).server_info = some si →
      ([98] : ByteStr).length ≤ si.max_payload) ∧
    NatsClient.request (ClientState.mk none [] []) [102] [98] [105] [115] =
      (ClientState.mk none
        [Op.SUB ⟨[105], none, [115]⟩, Op.UNSUB ⟨[115], some 1⟩,
         Op.PUB ⟨[102], some [105], [98]⟩]
        [([115], ⟨none, 0⟩)],
        none,
        [ReqAction.register [115], .enqueue (Op.SUB ⟨[105], none, [115]⟩),
         .enqueue (Op.UNSUB ⟨[115], some 1⟩),
         .enqueue (Op.PUB ⟨[102], some [105], [98]⟩)]) := by
  refine ⟨fun si h => by simp at h, ?_⟩
  have := (c8_request_sequence (ClientState.mk none [] []) [102] [98] [105]
    [115] (fun si h => by simp at h)).1
  simpa [alistPut] using this

/-- C2 (code bug): after `unsubscribe(sid, max_msgs = 1)`, with two
messages arriving for the SID, the consumer stream delivers exactly one
message and then simply ends: no transition of the subscription machine
ever produces an error outcome, and in particular the stream does NOT
complete with `SubscriptionReachedMaxMsgs(1)` as the spec — and the
repository's own test `can_subscribe_for_1000_messages` together with
the documentation of `NatsError::SubscriptionReachedMaxMsgs` — requires:
that variant is never constructed anywhere in the client sources. -/
theorem c2_cap_run_completes_without_error :
    SubState.run SubState.fresh
      [SubEv.unsub (some 1),
       SubEv.route ⟨[102, 111, 111], [115, 49], none, [49]⟩,
       SubEv.consume,
       SubEv.route ⟨[102, 111, 111], [115, 49], none, [50]⟩,
       SubEv.consume] =
      (⟨false, some 1, 1, []⟩,
       [SubOut.silent, .silent,
        .delivered ⟨[102, 111, 111], [115, 49], none, [49]⟩,
        .silent, .ended]) ∧
    ((SubState.run SubState.fresh
      [SubEv.unsub (some 1),
       SubEv.route ⟨[102, 111, 111], [115, 49], none, [49]⟩,
       SubEv.consume,
       SubEv.route ⟨[102, 111, 111], [115, 49], none, [50]⟩,
       SubEv.consume]).2.all
      (fun o => match o with | SubOut.errored _ => false | _ => true)) =
      true := by
  constructor
  · decide
  · decide

/-- One guarded step preserves the cap invariant of the subscription
machine: a live sink with a set cap has `count ≤ max_count`. -/
theorem subState_inv_step (s : SubState) (ev : SubEv)
    (hinv : ∀ n, s.present = true → s.max_count = some n → s.count ≤ n)
    (hg : s.guard1 ev = true) :
    ∀ n, (s.step ev).1.present = true → (s.step ev).1.max_count = some n →
      (s.step ev).1.count ≤ n := by
  intro n hp hm
  cases ev with
  | route m =>
    by_cases hps : s.present = true
    · simp [SubState.step, hps] at hp hm ⊢
      exact hinv n (by simp [hps]) hm
    · simp [SubState.step, hps] at hp
  | unsub mm =>
    cases mm with
    | none => simp [SubState.step] at hp
    | some k =>
      by_cases hps : s.present = true
      · simp [SubState.step, hps] at hp hm ⊢
        simp [SubState.guard1, hps] at hg
        omega
      · simp [SubState.step, hps] at hp
  | consume =>
    cases hq : s.queue with
    | nil =>
      simp [SubState.step, hq] at hp hm ⊢
      exact hinv n hp hm
    | cons m rest =>
      by_cases hps : s.present = true
      · cases hmc : s.max_count with
        | none => simp [SubState.step, hq, hps, hmc] at hp hm
        | some mc =>
          by_cases hge : s.count + 1 ≥ mc
          · simp [SubState.step, hq, hps, hmc, hge] at hp
          · simp only [SubState.step, hq, hps, hmc, if_true] at hp hm ⊢
            simp [hge] at hp hm ⊢
            omega
      · simp [SubState.step, hq, hps] at hp

/-- A guarded run from an invariant-satisfying state ends in an
invariant-satisfying state. -/
theorem subState_inv_run (evs : List SubEv) : ∀ s : SubState,
    (∀ n, s.present = true → s.max_count = some n → s.count ≤ n) →
    SubState.capGuard s evs = true →
    ∀ n, ((SubState.run s evs).1.present = true) →
      (SubState.run s evs).1.max_count = some n →
      (SubState.run s evs).1.count ≤ n := by
  induction evs with
  | nil => intro s hinv _; simpa [SubState.run] using hinv
  | cons ev evs ih =>
    intro s hinv hg
    rw [SubState.capGuard, Bool.and_eq_true] at hg
    have h1 := subState_inv_step s ev hinv hg.1
    simpa [SubState.run] using ih (s.step ev).1 h1 hg.2

/-- Removal characterization of one step: a live sink disappears exactly
on `unsubscribe` without a max, or on consuming a queued message that
raises the count to at least the set cap. -/
theorem subState_removal_char (s : SubState) (ev : SubEv)
    (hp : s.present = true) :
    ((s.step ev).1.present = false) ↔
      (ev = .unsub none ∨
        ∃ m rest n, ev = .consume ∧ s.queue = m :: rest ∧
          s.max_count = some n ∧ n ≤ s.count + 1) := by
  cases ev with
  | route m => simp [SubState.step, hp]
  | unsub mm =>
    cases mm with
    | none => simp [SubState.step]
    | some k => simp [SubState.step, hp]
  | consume =>
    cases hq : s.queue with
    | nil => simp [SubState.step, hq, hp]
    | cons m rest =>
      cases hmc : s.max_count with
      | none => simp [SubState.step, hq, hp, hmc]
      | some mc =>
        by_cases hge : s.count + 1 ≥ mc
        · simp [SubState.step, hq, hp, hmc, hge]
        · simp [SubState.step, hq, hp, hmc, hge]

/-- C6 counterexample: the claim's invariant `count ≤ max_count` fails as
stated.  Starting from a fresh subscription, `unsubscribe(max = 3)`, two
deliveries, then `unsubscribe(max = 1)` leaves a live sink with
`max_count = 1` but `count = 2`: `unsubscribe` overwrites `max_count`
without reconciling the already-accumulated count. -/
theorem c6_counterexample :
    ((SubState.run SubState.fresh
      [SubEv.unsub (some 3),
       SubEv.route ⟨[102], [115], none, [49]⟩,
       SubEv.consume,
       SubEv.route ⟨[102], [115], none, [50]⟩,
       SubEv.consume,
       SubEv.unsub (some 1)]).1.present = true) ∧
    ((SubState.run SubState.fresh
      [SubEv.unsub (some 3),
       SubEv.route ⟨[102], [115], none, [49]⟩,
       SubEv.consume,
       SubEv.route ⟨[102], [115], none, [50]⟩,
       SubEv.consume,
       SubEv.unsub (some 1)]).1.max_count = some 1) ∧
    ¬ ((SubState.run SubState.fresh
      [SubEv.unsub (some 3),
       SubEv.route ⟨[102], [115], none, [49]⟩,
       SubEv.consume,
       SubEv.route ⟨[102], [115], none, [50]⟩,
       SubEv.consume,
       SubEv.unsub (some 1)]).1.count ≤ 1) := by
  refine ⟨by decide, by decide, by decide⟩

/-- C6 (amended): provided every `unsubscribe(max = N)` that finds a live
sink supplies a cap at least the sink's current count — in particular
when unsubscribe-with-max is issued at most once, before any delivery —
a live sink with a set cap always satisfies `count ≤ max_count`; and a
live sink is removed exactly when the application unsubscribes without a
max, or when consuming a queued message brings the count to at least the
cap. -/
theorem c6_cap_invariant_amended :
    (∀ evs : List SubEv, SubState.capGuard SubState.fresh evs = true →
      ∀ n, ((SubState.run SubState.fresh evs).1.present = true) →
        (SubState.run SubState.fresh evs).1.max_count = some n →
        (SubState.run SubState.fresh evs).1.count ≤ n) ∧
    (∀ (s : SubState) (ev : SubEv), s.present = true →
      (((s.step ev).1.present = false) ↔
        (ev = .unsub none ∨
          ∃ m rest n, ev = .consume ∧ s.queue = m :: rest ∧
            s.max_count = some n ∧ n ≤ s.count + 1))) := by
  constructor
  · intro evs hg
    exact subState_inv_run evs SubState.fresh (by intro n h1 h2; simp [SubState.fresh] at h2) hg
  · intro s ev hp
    exact subState_removal_char s ev hp

/-- Witness for C6 (amended): a single `unsubscribe(max = 2)` followed by
one delivery keeps the invariant, and a consume step on a sink at its cap
removes it. -/
theorem c6_cap_invariant_amended_witness :
    SubState.capGuard SubState.fresh
      [SubEv.unsub (some 2), SubEv.route ⟨[102], [115], none, [49]⟩,
       SubEv.consume] = true ∧
    (∀ n, ((SubState.run SubState.fresh
        [SubEv.unsub (some 2), SubEv.route ⟨[102], [115], none, [49]⟩,
         SubEv.consume]).1.present = true) →
      (SubState.run SubState.fresh
        [SubEv.unsub (some 2), SubEv.route ⟨[102], [115], none, [49]⟩,
         SubEv.consume]).1.max_count = some n →
      (SubState.run SubState.fresh
        [SubEv.unsub (some 2), SubEv.route ⟨[102], [115], none, [49]⟩,
         SubEv.consume]).1.count ≤ n) ∧
    (SubState.mk true (some 1) 0 [⟨[102], [115], none, [49]⟩] : SubState).present
      = true ∧
    ((((SubState.mk true (some 1) 0 [⟨[102], [115], none, [49]⟩]).step
        SubEv.consume).1.present = false) ↔
      (SubEv.consume = SubEv.unsub none ∨
        ∃ m rest n, SubEv.consume = SubEv.consume ∧
          (SubState.mk true (some 1) 0
            [⟨[102], [115], none, [49]⟩]).queue = m :: rest ∧
          (SubState.mk true (some 1) 0
            [⟨[102], [115], none, [49]⟩]).max_count = some n ∧
          n ≤ (SubState.mk true (some 1) 0
            [⟨[102], [115], none, [49]⟩]).count + 1)) := by
  refine ⟨by decide, c6_cap_invariant_amended.1 _ (by decide), by decide,
    c6_cap_invariant_amended.2 _ SubEv.consume (by decide)⟩

/-- C9: calling `for_sid` again for a SID already in the table maps the
SID to a fresh channel and closes the previous one: the earlier
subscription stream receives no further messages (routing a message for
the SID leaves the old channel untouched and appends to the new one) and,
its sender dropped, completes once drained. -/
theorem c9_for_sid_replaces (st : MuxSt) (sid : ByteStr) (j : Nat) (c : Chan)
    (hj : alistGet sid st.tbl = some j) (hc : st.chans[j]? = some c) :
    (st.for_sid sid).2 = st.chans.length ∧
    j ≠ (st.for_sid sid).2 ∧
    alistGet sid (st.for_sid sid).1.tbl = some (st.for_sid sid).2 ∧
    (st.for_sid sid).1.chans[j]? = some ⟨c.queue, false⟩ ∧
    ∀ m : Message, m.sid = sid →
      ((st.for_sid sid).1.route m).chans[j]? = some ⟨c.queue, false⟩ ∧
      ((st.for_sid sid).1.route m).chans[(st.for_sid sid).2]? =
        some ⟨[m], true⟩ := by
  have hjlt : j < st.chans.length := by
    by_contra hge
    rw [List.getElem?_eq_none (by omega)] at hc
    exact Option.noConfusion hc
  have hc1 : (st.chans ++ [(⟨[], true⟩ : Chan)])[j]? = some c := by
    rw [List.getElem?_append_left hjlt]; exact hc
  have hlt1 : j < (st.chans ++ [(⟨[], true⟩ : Chan)]).length := by
    simp; omega
  have hfor : st.for_sid sid =
      ({ chans := (st.chans ++ [(⟨[], true⟩ : Chan)]).set j ⟨c.queue, false⟩,
         tbl := alistPut sid st.chans.length st.tbl }, st.chans.length) := by
    simp [MuxSt.for_sid, hj, hc1]
  refine ⟨by rw [hfor], by rw [hfor]; omega,
    by rw [hfor]; simp [alistGet, alistPut], ?_, ?_⟩
  · rw [hfor]
    exact List.getElem?_set_eq_of_lt (⟨c.queue, false⟩ : Chan) hlt1
  · intro m hm
    have hgetL : ((st.chans ++ [(⟨[], true⟩ : Chan)]).set j
        (⟨c.queue, false⟩ : Chan))[st.chans.length]?
        = some (⟨[], true⟩ : Chan) := by
      rw [List.getElem?_set_ne (by omega)]
      rw [List.getElem?_append_right (Nat.le_refl _)]
      simp
    have hroute : (st.for_sid sid).1.route m =
        { chans := ((st.chans ++ [(⟨[], true⟩ : Chan)]).set j
            (⟨c.queue, false⟩ : Chan)).set st.chans.length ⟨[m], true⟩,
          tbl := alistPut sid st.chans.length st.tbl } := by
      rw [hfor]
      simp only [MuxSt.route]
      simp only [alistGet, alistPut, hm]
      simp [hgetL]
    rw [hroute, hfor]
    constructor
    · rw [List.getElem?_set_ne (by omega)]
      exact List.getElem?_set_eq_of_lt (⟨c.queue, false⟩ : Chan) hlt1
    · have hlt2 : st.chans.length <
          (((st.chans ++ [(⟨[], true⟩ : Chan)]).set j
            (⟨c.queue, false⟩ : Chan))).length := by
        simp
      exact List.getElem?_set_eq_of_lt (⟨[m], true⟩ : Chan) hlt2

/-- Witness for C9: a table mapping SID `"s"` to channel 0 with one live
channel; re-subscribing moves the SID to channel 1, closes channel 0, and
a routed message lands only on channel 1. -/
theorem c9_for_sid_replaces_witness :
    alistGet [115] (MuxSt.mk [⟨[], true⟩] [([115], 0)]).tbl = some 0 ∧
    (MuxSt.mk [⟨[], true⟩] [([115], 0)]).chans[0]? = some ⟨[], true⟩ ∧
    ((MuxSt.mk [⟨[], true⟩] [([115], 0)]).for_sid [115]).2 = 1 ∧
    (((MuxSt.mk [⟨[], true⟩] [([115], 0)]).for_sid [115]).1.route
        ⟨[102], [115], none, [49]⟩).chans[0]? = some ⟨[], false⟩ := by
  refine ⟨by decide, by decide, ?_, ?_⟩
  · exact (c9_for_sid_replaces (MuxSt.mk [⟨[], true⟩] [([115], 0)]) [115] 0
      ⟨[], true⟩ (by decide) (by decide)).1
  · exact ((c9_for_sid_replaces (MuxSt.mk [⟨[], true⟩] [([115], 0)]) [115] 0
      ⟨[], true⟩ (by decide) (by decide)).2.2.2.2
        ⟨[102], [115], none, [49]⟩ rfl).1

/-! ## Byte-scanning lemmas -/

/-- A scan that misses on `a` continues into `r`, shifting indices. -/
theorem findByte_append_of_none {p : Nat → Bool} {a : ByteStr} (r : ByteStr)
    (h : findByte p a = none) :
    findByte p (a ++ r) = (findByte p r).map (a.length + ·) := by
  induction a with
  | nil =>
    simp only [List.nil_append, List.length_nil]
    cases hr : findByte p r <;> simp
  | cons x t ih =>
    rw [findByte] at h
    by_cases hx : p x = true
    · rw [if_pos hx] at h; exact Option.noConfusion h
    · rw [if_neg hx] at h
      have ht : findByte p t = none := by
        cases htv : findByte p t
        · rfl
        · rw [htv] at h; simp at h
      rw [List.cons_append, findByte, if_neg hx, ih ht]
      cases hr : findByte p r
      · simp
      · rename_i v
        simp only [Option.map_some', List.length_cons]
        refine congrArg some ?_
        show t.length + v + 1 = t.length + 1 + v
        omega

/-- A hit inside `a` is unchanged by extending the list. -/
theorem findByte_append_of_some {p : Nat → Bool} {a : ByteStr} {k : Nat}
    (r : ByteStr) (h : findByte p a = some k) :
    findByte p (a ++ r) = some k := by
  induction a generalizing k with
  | nil => simp [findByte] at h
  | cons x t ih =>
    rw [findByte] at h
    rw [List.cons_append, findByte]
    by_cases hx : p x = true
    · rw [if_pos hx] at h ⊢; exact h
    · rw [if_neg hx] at h ⊢
      cases ht : findByte p t with
      | none => rw [ht] at h; simp at h
      | some k' =>
        rw [ht] at h
        rw [ih ht]
        exact h

/-- Missing on the whole list means no byte satisfies `p`. -/
theorem findByte_eq_none {p : Nat → Bool} {l : ByteStr}
    (h : ∀ b ∈ l, p b = false) : findByte p l = none := by
  induction l with
  | nil => rfl
  | cons x t ih =>
    rw [findByte]
    have hx := h x (by simp)
    simp [hx, ih (fun b hb => h b (by simp [hb]))]

/-- A hit index is inside the list. -/
theorem findByte_lt_length {p : Nat → Bool} {l : ByteStr} {k : Nat}
    (h : findByte p l = some k) : k < l.length := by
  induction l generalizing k with
  | nil => simp [findByte] at h
  | cons x t ih =>
    rw [findByte] at h
    by_cases hx : p x = true
    · rw [if_pos hx] at h
      have hk : k = 0 := by simpa using h.symm
      subst hk
      simp
    · rw [if_neg hx] at h
      cases ht : findByte p t with
      | none => rw [ht] at h; simp at h
      | some k' =>
        rw [ht] at h
        simp only [Option.map_some', Option.some.injEq] at h
        have := ih ht
        simp only [List.length_cons]
        omega

/-- Unfolding of `findCrlf` on a list of length at least two. -/
theorem findCrlf_cons₂ (a b : Nat) (t : ByteStr) :
    findCrlf (a :: b :: t) =
      if a = 13 ∧ b = 10 then some 0 else (findCrlf (b :: t)).map (· + 1) := by
  rw [findCrlf]

/-- A CRLF-free front part shifts the first CRLF of what follows: the
first pair of `l ++ CRLF ++ ...` sits exactly at `l.length` (a pair cannot
straddle the boundary, as its second byte would have to be both the
appended CR and LF). -/
theorem findCrlf_append_crlf {l : ByteStr} (r : ByteStr)
    (h : findCrlf l = none) :
    findCrlf (l ++ 13 :: 10 :: r) = some l.length := by
  induction l with
  | nil => simp [findCrlf]
  | cons x t ih =>
    cases t with
    | nil =>
      have h1 : findCrlf (13 :: 10 :: r) = some 0 := by
        rw [findCrlf_cons₂]; simp
      have hx : ¬ (x = 13 ∧ (13 : Nat) = 10) := by omega
      show findCrlf (x :: 13 :: 10 :: r) = some 1
      rw [findCrlf_cons₂, if_neg hx, h1]
      rfl
    | cons y t' =>
      rw [findCrlf_cons₂] at h
      have hxy : ¬ (x = 13 ∧ y = 10) := by
        intro hh
        rw [if_pos hh] at h
        exact Option.noConfusion h
      rw [if_neg hxy] at h
      have ht : findCrlf (y :: t') = none := by
        cases htv : findCrlf (y :: t')
        · rfl
        · rw [htv] at h; simp at h
      have h2 := ih ht
      show findCrlf ((x :: y :: t') ++ 13 :: 10 :: r) = some ((x :: y :: t').length)
      rw [show (x :: y :: t') ++ 13 :: 10 :: r = x :: y :: (t' ++ 13 :: 10 :: r) by simp]
      rw [findCrlf_cons₂, if_neg hxy]
      rw [show y :: (t' ++ 13 :: 10 :: r) = (y :: t') ++ 13 :: 10 :: r by simp]
      rw [h2]
      simp

/-- A pair found in `l` is unchanged by extending the list. -/
theorem findCrlf_append_of_some {l : ByteStr} {k : Nat} (r : ByteStr)
    (h : findCrlf l = some k) : findCrlf (l ++ r) = some k := by
  induction l generalizing k with
  | nil => simp [findCrlf] at h
  | cons x t ih =>
    cases t with
    | nil => simp [findCrlf] at h
    | cons y t' =>
      rw [findCrlf_cons₂] at h
      by_cases hxy : x = 13 ∧ y = 10
      · rw [if_pos hxy] at h
        rw [show (x :: y :: t') ++ r = x :: y :: (t' ++ r) by simp]
        rw [findCrlf_cons₂, if_pos hxy]
        exact h
      · rw [if_neg hxy] at h
        cases ht : findCrlf (y :: t') with
        | none => rw [ht] at h; simp at h
        | some k' =>
          rw [ht] at h
          have h2 := ih ht
          rw [show (x :: y :: t') ++ r = x :: ((y :: t') ++ r) by simp]
          rw [show x :: ((y :: t') ++ r) = x :: y :: (t' ++ r) by simp]
          rw [findCrlf_cons₂, if_neg hxy]
          rw [show y :: (t' ++ r) = (y :: t') ++ r by simp, h2]
          exact h

/-- No byte equal to CR means no CRLF pair. -/
theorem findCrlf_eq_none_of_no13 {l : ByteStr}
    (h : ∀ b ∈ l, b ≠ 13) : findCrlf l = none := by
  induction l with
  | nil => rfl
  | cons x t ih =>
    cases t with
    | nil => rfl
    | cons y t' =>
      rw [findCrlf_cons₂]
      have hx : x ≠ 13 := h x (by simp)
      have hxy : ¬ (x = 13 ∧ y = 10) := fun hh => hx hh.1
      rw [if_neg hxy, ih (fun b hb => h b (by simp [hb]))]
      rfl

/-- The found pair fits inside the list. -/
theorem findCrlf_bound {l : ByteStr} {k : Nat} (h : findCrlf l = some k) :
    k + 2 ≤ l.length := by
  induction l generalizing k with
  | nil => simp [findCrlf] at h
  | cons x t ih =>
    cases t with
    | nil => simp [findCrlf] at h
    | cons y t' =>
      rw [findCrlf_cons₂] at h
      by_cases hxy : x = 13 ∧ y = 10
      · rw [if_pos hxy] at h
        have hk : k = 0 := by simpa using h.symm
        subst hk
        simp
      · rw [if_neg hxy] at h
        cases ht : findCrlf (y :: t') with
        | none => rw [ht] at h; simp at h
        | some k' =>
          rw [ht] at h
          simp only [Option.map_some', Option.some.injEq] at h
          have := ih ht
          simp only [List.length_cons] at *
          omega

/-- `slice::split` always yields at least one sub-slice. -/
theorem splitSep_ne_nil {p : Nat → Bool} (l : ByteStr) : splitSep p l ≠ [] := by
  cases l with
  | nil => simp [splitSep]
  | cons c t =>
    rw [splitSep]
    by_cases hc : p c = true
    · simp [hc]
    · rw [if_neg hc]
      cases splitSep p t <;> simp

/-- `slice::split` on a separator-free list yields that list alone. -/
theorem splitSep_of_noSep {p : Nat → Bool} {a : ByteStr}
    (h : ∀ b ∈ a, p b = false) : splitSep p a = [a] := by
  induction a with
  | nil => rfl
  | cons x t ih =>
    rw [splitSep]
    have hx : ¬ p x = true := by simp [h x (by simp)]
    rw [if_neg hx, ih (fun b hb => h b (by simp [hb]))]

/-- `slice::split`: a separator-free front token, a separator, then the
rest. -/
theorem splitSep_append_sep {p : Nat → Bool} {a : ByteStr} {c : Nat}
    (r : ByteStr) (ha : ∀ b ∈ a, p b = false) (hc : p c = true) :
    splitSep p (a ++ c :: r) = a :: splitSep p r := by
  induction a with
  | nil => simp [splitSep, hc]
  | cons x t ih =>
    have hx : ¬ p x = true := by simp [ha x (by simp)]
    rw [List.cons_append, splitSep, if_neg hx]
    rw [ih (fun b hb => ha b (by simp [hb]))]

/-- Token accumulation of the `split_whitespace` worker. -/
theorem splitWsAux_token {a : ByteStr} (acc r : ByteStr)
    (h : ∀ b ∈ a, isStrWsByte b = false) :
    splitWsAux acc (a ++ r) = splitWsAux (a.reverse ++ acc) r := by
  induction a generalizing acc with
  | nil => simp
  | cons x t ih =>
    have hx : ¬ isStrWsByte x = true := by simp [h x (by simp)]
    rw [List.cons_append, splitWsAux.eq_def]
    simp only [if_neg hx]
    rw [ih (x :: acc) (fun b hb => h b (by simp [hb]))]
    simp

/-- `split_whitespace`: a non-empty whitespace-free token followed by a
whitespace byte contributes the token. -/
theorem splitWs_token_sep {a : ByteStr} {c : Nat} (r : ByteStr)
    (hne : a ≠ []) (ha : ∀ b ∈ a, isStrWsByte b = false)
    (hc : isStrWsByte c = true) :
    splitWs (a ++ c :: r) = a :: splitWs r := by
  rw [splitWs, splitWsAux_token _ _ ha, List.append_nil, splitWsAux.eq_def]
  have hrne : a.reverse ≠ [] := by simpa using hne
  simp only [hc, if_true, if_neg hrne]
  simp [splitWs]

/-- `split_whitespace` of a single non-empty whitespace-free token. -/
theorem splitWs_single {a : ByteStr} (hne : a ≠ [])
    (ha : ∀ b ∈ a, isStrWsByte b = false) : splitWs a = [a] := by
  rw [splitWs, show a = a ++ [] by simp, splitWsAux_token _ _ ha,
    List.append_nil, splitWsAux.eq_def]
  have hrne : a.reverse ≠ [] := by simpa using hne
  simp [hrne]

/-! ## Decimal rendering and parsing lemmas -/

/-- The fuel-driven renderer computes the reversed `Nat.digits`,
offset into ASCII. -/
theorem natToBytesAux_eq : ∀ (fuel n : Nat), n ≤ fuel →
    natToBytesAux fuel n = ((Nat.digits 10 n).map (· + 48)).reverse := by
  intro fuel
  induction fuel with
  | zero =>
    intro n hn
    interval_cases n
    simp [natToBytesAux]
  | succ fuel ih =>
    intro n hn
    rw [natToBytesAux]
    by_cases h : n = 0
    · simp [h]
    · rw [if_neg h]
      have h1 : n / 10 < n := Nat.div_lt_self (by omega) (by norm_num)
      have hdiv : n / 10 ≤ fuel := by omega
      rw [ih (n / 10) hdiv]
      rw [show Nat.digits 10 n = n % 10 :: Nat.digits 10 (n / 10) from
        Nat.digits_def' (by norm_num) (by omega)]
      simp

/-- The renderer in terms of `Nat.digits`. -/
theorem natToBytes_eq (n : Nat) : natToBytes n =
    if n = 0 then [48] else ((Nat.digits 10 n).map (· + 48)).reverse := by
  rw [natToBytes]
  by_cases h : n = 0
  · simp [h]
  · rw [if_neg h, if_neg h, natToBytesAux_eq n n (Nat.le_refl n)]

/-- Every byte of a rendered decimal is an ASCII digit. -/
theorem natToBytes_all_digits (n : Nat) :
    ∀ b ∈ natToBytes n, isDigitByte b = true := by
  intro b hb
  rw [natToBytes_eq] at hb
  by_cases h : n = 0
  · rw [if_pos h] at hb
    simp at hb
    simp [hb, isDigitByte]
  · rw [if_neg h] at hb
    simp only [List.mem_reverse, List.mem_map] at hb
    obtain ⟨d, hd, rfl⟩ := hb
    have := Nat.digits_lt_base (by omega) hd
    simp [isDigitByte]
    omega

/-- A rendered decimal is never empty (Rust prints `"0"` for zero). -/
theorem natToBytes_ne_nil (n : Nat) : natToBytes n ≠ [] := by
  rw [natToBytes_eq]
  by_cases h : n = 0
  · simp [h]
  · rw [if_neg h]
    simp [Nat.digits_ne_nil_iff_ne_zero.mpr h]

/-- The big-endian digit fold computes `Nat.ofDigits` of the
little-endian digit list. -/
theorem foldr_eq_ofDigits (L : List Nat) :
    L.foldr (fun d acc => acc * 10 + d) 0 = Nat.ofDigits 10 L := by
  induction L with
  | nil => simp [Nat.ofDigits]
  | cons d L ih =>
    simp [Nat.ofDigits_cons, ih]
    omega

/-- Subtracting the ASCII offset undoes adding it, inside the fold. -/
theorem foldr_sub48 (L : List Nat) :
    L.foldr (fun x y => y * 10 + (x + 48 - 48)) 0 =
      L.foldr (fun d acc => acc * 10 + d) 0 := by
  induction L with
  | nil => rfl
  | cons d L ih => simp [ih]

/-- Parsing inverts rendering: `parse(to_string(n)) = n`. -/
theorem parseNat_natToBytes (n : Nat) : parseNat (natToBytes n) = some n := by
  rw [parseNat, if_pos ⟨natToBytes_ne_nil n, by
    rw [List.all_eq_true]; exact natToBytes_all_digits n⟩]
  congr 1
  rw [natToBytes_eq]
  by_cases h : n = 0
  · simp [h]
  · rw [if_neg h, List.foldl_reverse, List.foldr_map]
    have h1 := foldr_sub48 (Nat.digits 10 n)
    have h2 := foldr_eq_ofDigits (Nat.digits 10 n)
    have h3 := Nat.ofDigits_digits 10 n
    simp only [] at h1 ⊢
    rw [h1, h2]
    exact_mod_cast h3

/-- Digit bytes are in no whitespace or separator class and are not CR. -/
theorem digit_byte_classes {b : Nat} (h : isDigitByte b = true) :
    isWsByte b = false ∧ isSepByte b = false ∧ isStrWsByte b = false ∧
      b ≠ 13 ∧ goodTokByte b = true := by
  rw [isDigitByte] at h
  simp only [Bool.and_eq_true, decide_eq_true_eq] at h
  rw [isWsByte, isSepByte, isStrWsByte, goodTokByte]
  refine ⟨?_, ?_, ?_, ?_, ?_⟩ <;> simp <;> omega

/-- Good token bytes are in no whitespace or separator class and are not
CR or LF. -/
theorem good_byte_classes {b : Nat} (h : goodTokByte b = true) :
    isWsByte b = false ∧ isSepByte b = false ∧ isStrWsByte b = false ∧
      b ≠ 13 := by
  rw [goodTokByte] at h
  simp only [Bool.and_eq_true, Bool.not_eq_true', Bool.or_eq_false_iff,
    decide_eq_true_eq, beq_eq_false_iff_ne, ne_eq] at h
  rw [isWsByte, isSepByte, isStrWsByte]
  refine ⟨?_, ?_, ?_, ?_⟩ <;> simp <;> omega

/-- Dropping all but the final two bytes leaves them. -/
theorem drop_len_sub_two (A : ByteStr) (x y : Nat) :
    (A ++ [x, y]).drop ((A ++ [x, y]).length - 2) = [x, y] := by
  have h : (A ++ [x, y]).length - 2 = A.length := by simp
  rw [h, List.drop_left]

/-- Taking all but the final two bytes drops them. -/
theorem take_len_sub_two (A : ByteStr) (x y : Nat) :
    (A ++ [x, y]).take ((A ++ [x, y]).length - 2) = A := by
  have h : (A ++ [x, y]).length - 2 = A.length := by simp
  rw [h, List.take_left]

/-- Framing facts for a PUB/MSG frame `(hdr ++ CRLF ++ p) ++ CRLF` whose
header contains no CR byte: the final CRLF check, the position of the
header CRLF, its LF byte, the payload slice, and the header slice. -/
theorem frame_facts (hdr p : ByteStr) (hno13 : ∀ b ∈ hdr, b ≠ 13) :
    (((hdr ++ 13 :: 10 :: p) ++ [13, 10]).drop
        (((hdr ++ 13 :: 10 :: p) ++ [13, 10]).length - 2) = [13, 10]) ∧
    (findByte (· == 13) (((hdr ++ 13 :: 10 :: p) ++ [13, 10]).take
        (((hdr ++ 13 :: 10 :: p) ++ [13, 10]).length - 2)) = some hdr.length) ∧
    (((hdr ++ 13 :: 10 :: p) ++ [13, 10])[hdr.length + 1]? = some 10) ∧
    ((((hdr ++ 13 :: 10 :: p) ++ [13, 10]).take
        (((hdr ++ 13 :: 10 :: p) ++ [13, 10]).length - 2)).drop
        (hdr.length + 2) = p) ∧
    (((hdr ++ 13 :: 10 :: p) ++ [13, 10]).take hdr.length = hdr) := by
  have htake := take_len_sub_two (hdr ++ 13 :: 10 :: p) 13 10
  refine ⟨drop_len_sub_two _ _ _, ?_, ?_, ?_, ?_⟩
  · rw [htake]
    have h1 : findByte (· == 13) hdr = none :=
      findByte_eq_none (fun b hb => by simpa using hno13 b hb)
    rw [findByte_append_of_none _ h1]
    rw [show findByte (· == 13) (13 :: 10 :: p) = some 0 by rw [findByte]; simp]
    simp
  · have hlt : hdr.length + 1 < (hdr ++ 13 :: 10 :: p).length := by simp
    rw [List.getElem?_append_left hlt,
      List.getElem?_append_right (by omega : hdr.length ≤ hdr.length + 1)]
    have h1 : hdr.length + 1 - hdr.length = 1 := by omega
    rw [h1]
    simp
  · rw [htake]
    rw [show hdr ++ 13 :: 10 :: p = (hdr ++ [13, 10]) ++ p by simp]
    rw [show hdr.length + 2 = (hdr ++ [13, 10]).length by simp]
    exact List.drop_left _ _
  · rw [show (hdr ++ 13 :: 10 :: p) ++ [13, 10]
        = hdr ++ (13 :: 10 :: p ++ [13, 10]) by simp]
    exact List.take_left hdr _

theorem pub_try_parse_frame (hdr p : ByteStr) (hno13 : ∀ b ∈ hdr, b ≠ 13) :
    PubCommand.try_parse ((hdr ++ 13 :: 10 :: p) ++ [13, 10]) =
      (match splitSep isSepByte hdr with
       | [] => .error .commandMalformed
       | cmd :: rest =>
         if cmd ≠ pubName then .error .commandMalformed
         else match rest.getLast? with
           | none => .error .commandMalformed
           | some plenTok => match parseNat plenTok with
             | none => .error .payloadLengthParseError
             | some plen =>
               if p.length ≠ plen then .error .commandMalformed
               else match rest.dropLast with
                 | [] => .error .commandMalformed
                 | subject :: more => .ok ⟨subject, more.head?, p⟩) := by
  obtain ⟨h1, h2, h3, h4, h5⟩ := frame_facts hdr p hno13
  rw [PubCommand.try_parse, h1]
  simp only [crlf, ne_eq, not_true_eq_false, if_false]
  simp only [h2, h3, h4, h5, ne_eq, not_true_eq_false, if_false]

/-- `findByteFrom` at cursor zero is a plain scan. -/
theorem findByteFrom_zero (p : Nat → Bool) (buf : ByteStr) :
    findByteFrom p buf 0 = findByte p buf := by
  rw [findByteFrom, List.drop_zero]
  cases h : findByte p buf <;> simp

/-- The first codec whitespace of an encoded frame is the tab right after
the command name. -/
theorem findWs_encoded (name X : ByteStr)
    (hname : ∀ b ∈ name, isWsByte b = false) :
    findByte isWsByte (name ++ 9 :: X) = some name.length := by
  rw [findByte_append_of_none _ (findByte_eq_none hname)]
  rw [show findByte isWsByte (9 :: X) = some 0 by rw [findByte]; rfl]
  simp

/-- The header CRLF of an encoded frame `name ++ TAB ++ mid ++ CRLF ++ T`
sits right after the CR-free `mid`. -/
theorem findCrlfFrom_encoded (name mid T : ByteStr)
    (hmid : ∀ b ∈ mid, b ≠ 13) :
    findCrlfFrom (name ++ 9 :: (mid ++ 13 :: 10 :: T)) name.length =
      some (name.length + (mid.length + 1)) := by
  rw [findCrlfFrom]
  rw [show name ++ 9 :: (mid ++ 13 :: 10 :: T) = name ++ (9 :: mid) ++ 13 :: 10 :: T by simp]
  rw [show (name ++ (9 :: mid) ++ 13 :: 10 :: T).drop name.length
      = ((name ++ (9 :: mid)).drop name.length) ++ 13 :: 10 :: T from by
    rw [List.drop_append_of_le_length (by simp)]]
  rw [List.drop_left]
  rw [findCrlf_append_crlf _ (findCrlf_eq_none_of_no13 (by
    intro b hb
    rcases List.mem_cons.mp hb with h9 | hm
    · omega
    · exact hmid b hm))]
  simp

/-- Scan of an encoded non-payload frame (`SUB`/`UNSUB`): the frame ends
at the header CRLF. -/
theorem scan_encoded_textual (name mid : ByteStr) (hne : name ≠ [])
    (hname : ∀ b ∈ name, isWsByte b = false)
    (hex : Op.command_exists name = true)
    (hnp : ¬ (name = pubName ∨ name = msgName))
    (hmid : ∀ b ∈ mid, b ≠ 13) :
    OpCodec.scan 0 (name ++ 9 :: (mid ++ [13, 10])) =
      .frame name.length (name.length + (mid.length + 1) + 2) := by
  have hbufne : name ++ 9 :: (mid ++ [13, 10]) ≠ [] := by
    cases name with
    | nil => exact absurd rfl hne
    | cons a t => simp
  have hce : findByteFrom isWsByte (name ++ 9 :: (mid ++ [13, 10])) 0
      = some name.length := by
    rw [findByteFrom_zero]; exact findWs_encoded _ _ hname
  have htk : (name ++ 9 :: (mid ++ [13, 10])).take name.length = name :=
    List.take_left _ _
  have hcr : findCrlfFrom (name ++ 9 :: (mid ++ [13, 10])) name.length
      = some (name.length + (mid.length + 1)) := by
    have := findCrlfFrom_encoded name mid [] hmid
    simpa using this
  rw [OpCodec.scan, if_neg hbufne, hce]
  simp only [htk, hex, Bool.not_true, Bool.false_eq_true, if_false, hcr,
    hnp, if_true]
  simp [hnp]

/-- Scan of an encoded PUB/MSG frame: the frame ends at the CRLF after a
pair-free payload. -/
theorem scan_encoded_pubmsg (name mid p : ByteStr) (hne : name ≠ [])
    (hname : ∀ b ∈ name, isWsByte b = false)
    (hex : Op.command_exists name = true)
    (hnp : name = pubName ∨ name = msgName)
    (hmid : ∀ b ∈ mid, b ≠ 13)
    (hp : findCrlf p = none) :
    OpCodec.scan 0 (name ++ 9 :: (mid ++ 13 :: 10 :: (p ++ [13, 10]))) =
      .frame name.length (name.length + (mid.length + 1) + 2 + p.length + 2) := by
  have hbufne : name ++ 9 :: (mid ++ 13 :: 10 :: (p ++ [13, 10])) ≠ [] := by
    cases name with
    | nil => exact absurd rfl hne
    | cons a t => simp
  have hce : findByteFrom isWsByte
      (name ++ 9 :: (mid ++ 13 :: 10 :: (p ++ [13, 10]))) 0
      = some name.length := by
    rw [findByteFrom_zero]; exact findWs_encoded _ _ hname
  have htk : (name ++ 9 :: (mid ++ 13 :: 10 :: (p ++ [13, 10]))).take
      name.length = name := List.take_left _ _
  have hcr := findCrlfFrom_encoded name mid (p ++ [13, 10]) hmid
  have hcr2 : findCrlfFrom (name ++ 9 :: (mid ++ 13 :: 10 :: (p ++ [13, 10])))
      ((name.length + (mid.length + 1)) + 2)
      = some (name.length + (mid.length + 1) + 2 + p.length) := by
    rw [findCrlfFrom]
    rw [show name ++ 9 :: (mid ++ 13 :: 10 :: (p ++ [13, 10]))
        = (name ++ 9 :: mid ++ [13, 10]) ++ (p ++ [13, 10]) by simp]
    rw [show (name.length + (mid.length + 1)) + 2
        = (name ++ 9 :: mid ++ [13, 10]).length from by simp; omega]
    rw [List.drop_left]
    rw [show p ++ [13, 10] = p ++ 13 :: 10 :: [] by simp]
    rw [findCrlf_append_crlf _ hp]
    simp
  rw [OpCodec.scan, if_neg hbufne, hce]
  simp only [htk, hex, Bool.not_true, Bool.false_eq_true, if_false, hcr,
    hnp, if_true]
  simp [hnp, hcr2]

/-- Components of `goodTok`. -/
theorem goodTok_spec {t : ByteStr} (h : goodTok t = true) :
    t ≠ [] ∧ (∀ b ∈ t, isSepByte b = false) ∧ (∀ b ∈ t, b ≠ 13) ∧
      (∀ b ∈ t, isWsByte b = false) ∧ (∀ b ∈ t, isStrWsByte b = false) := by
  rw [goodTok, Bool.and_eq_true, List.all_eq_true] at h
  obtain ⟨hne, hall⟩ := h
  refine ⟨by simpa using hne, ?_, ?_, ?_, ?_⟩ <;>
    intro b hb <;>
    have := good_byte_classes (hall b hb) <;>
    tauto

/-- Digit strings: separator/whitespace-free and CR-free. -/
theorem natToBytes_spec (n : Nat) :
    (∀ b ∈ natToBytes n, isSepByte b = false) ∧
      (∀ b ∈ natToBytes n, b ≠ 13) ∧
      (∀ b ∈ natToBytes n, isWsByte b = false) ∧
      (∀ b ∈ natToBytes n, isStrWsByte b = false) := by
  refine ⟨?_, ?_, ?_, ?_⟩ <;>
    intro b hb <;>
    have := digit_byte_classes (natToBytes_all_digits n b hb) <;>
    tauto

/-- Unfolding `decode` on a completed scan. -/
theorem decode_of_scan_frame {buf : ByteStr} {ce ep : Nat}
    (h : OpCodec.scan 0 buf = .frame ce ep) :
    OpCodec.decode ⟨0⟩ buf =
      (⟨0⟩, buf.drop ep,
        match Op.from_bytes (buf.take ep) ce with
        | .ok op => .item op
        | .error e => .fail e) := by
  rw [OpCodec.decode]
  rw [show (⟨0⟩ : OpCodec).next_index = 0 from rfl, h]
  cases hfb : Op.from_bytes (buf.take ep) ce <;> simp [hfb]

/-- Dispatch of `from_bytes` on a PUB name. -/
theorem from_bytes_pub {buf : ByteStr} (h : buf.take 3 = pubName) :
    Op.from_bytes buf 3 = (PubCommand.try_parse buf).map Op.PUB := by
  rw [Op.from_bytes, h]
  rfl

/-- Dispatch of `from_bytes` on a MSG name. -/
theorem from_bytes_msg {buf : ByteStr} (h : buf.take 3 = msgName) :
    Op.from_bytes buf 3 = (Message.try_parse buf).map Op.MSG := by
  rw [Op.from_bytes, h]
  rfl

/-- Dispatch of `from_bytes` on a SUB name. -/
theorem from_bytes_sub {buf : ByteStr} (h : buf.take 3 = subName) :
    Op.from_bytes buf 3 = (SubCommand.try_parse buf).map Op.SUB := by
  rw [Op.from_bytes, h]
  rfl

/-- Dispatch of `from_bytes` on an UNSUB name. -/
theorem from_bytes_unsub {buf : ByteStr} (h : buf.take 5 = unsubName) :
    Op.from_bytes buf 5 = (UnsubCommand.try_parse buf).map Op.UNSUB := by
  rw [Op.from_bytes, h]
  rfl

/-- PUB parse inverts PUB encode for well-formed tokens, with an
arbitrary payload (embedded CRLF included). -/
theorem pub_try_parse_roundtrip (s p : ByteStr) (rt : Option ByteStr)
    (hs : goodTok s = true) (hrt : goodOptTok rt = true) :
    PubCommand.try_parse (PubCommand.into_vec ⟨s, rt, p⟩) = .ok ⟨s, rt, p⟩ := by
  obtain ⟨hsne, hsSep, hs13, hsWs, hsStr⟩ := goodTok_spec hs
  obtain ⟨hDSep, hD13, hDWs, hDStr⟩ := natToBytes_spec p.length
  cases rt with
  | none =>
    have hshape : PubCommand.into_vec ⟨s, none, p⟩
        = ((pubName ++ 9 :: (s ++ 9 :: natToBytes p.length))
            ++ 13 :: 10 :: p) ++ [13, 10] := by
      simp [PubCommand.into_vec, crlf]
    have hno13 : ∀ b ∈ pubName ++ 9 :: (s ++ 9 :: natToBytes p.length),
        b ≠ 13 := by
      intro b hb
      simp only [pubName, List.mem_append, List.mem_cons] at hb
      rcases hb with h | h | h | h | h
      · simp at h; omega
      · omega
      · exact hs13 b h
      · omega
      · exact hD13 b h
    rw [hshape, pub_try_parse_frame _ _ hno13]
    have hsplit : splitSep isSepByte
        (pubName ++ 9 :: (s ++ 9 :: natToBytes p.length))
        = [pubName, s, natToBytes p.length] := by
      rw [splitSep_append_sep _ (by decide) (by decide),
        splitSep_append_sep _ hsSep (by decide),
        splitSep_of_noSep hDSep]
    rw [hsplit]
    simp [parseNat_natToBytes]
  | some r =>
    obtain ⟨hrne, hrSep, hr13, hrWs, hrStr⟩ := goodTok_spec (by simpa [goodOptTok] using hrt)
    have hshape : PubCommand.into_vec ⟨s, some r, p⟩
        = ((pubName ++ 9 :: (s ++ 9 :: (r ++ 9 :: natToBytes p.length)))
            ++ 13 :: 10 :: p) ++ [13, 10] := by
      simp [PubCommand.into_vec, crlf]
    have hno13 : ∀ b ∈ pubName ++ 9 :: (s ++ 9 :: (r ++ 9 :: natToBytes p.length)),
        b ≠ 13 := by
      intro b hb
      simp only [pubName, List.mem_append, List.mem_cons] at hb
      rcases hb with h | h | h | h | h | h | h
      · simp at h; omega
      · omega
      · exact hs13 b h
      · omega
      · exact hr13 b h
      · omega
      · exact hD13 b h
    rw [hshape, pub_try_parse_frame _ _ hno13]
    have hsplit : splitSep isSepByte
        (pubName ++ 9 :: (s ++ 9 :: (r ++ 9 :: natToBytes p.length)))
        = [pubName, s, r, natToBytes p.length] := by
      rw [splitSep_append_sep _ (by decide) (by decide),
        splitSep_append_sep _ hsSep (by decide),
        splitSep_append_sep _ hrSep (by decide),
        splitSep_of_noSep hDSep]
    rw [hsplit]
    simp [parseNat_natToBytes]

/-- Frame-level reduction of `Message.try_parse` on a CR-free header. -/
theorem msg_try_parse_frame (hdr p : ByteStr) (hno13 : ∀ b ∈ hdr, b ≠ 13) :
    Message.try_parse ((hdr ++ 13 :: 10 :: p) ++ [13, 10]) =
      (match splitSep isSepByte hdr with
       | [] => .error .commandMalformed
       | cmd :: rest =>
         if cmd ≠ msgName then .error .commandMalformed
         else match rest.getLast? with
           | none => .error .commandMalformed
           | some plenTok => match parseNat plenTok with
             | none => .error .payloadLengthParseError
             | some plen =>
               if p.length ≠ plen then .error .commandMalformed
               else match rest.dropLast with
                 | [] => .error .commandMalformed
                 | [_] => .error .commandMalformed
                 | subject :: sid :: more =>
                   .ok ⟨subject, sid, more.head?, p⟩) := by
  obtain ⟨h1, h2, h3, h4, h5⟩ := frame_facts hdr p hno13
  rw [Message.try_parse, h1]
  simp only [crlf, ne_eq, not_true_eq_false, if_false]
  simp only [h2, h3, h4, h5, ne_eq, not_true_eq_false, if_false]

/-- MSG parse inverts MSG encode for well-formed tokens, with an
arbitrary payload (embedded CRLF included). -/
theorem msg_try_parse_roundtrip (s sid p : ByteStr) (rt : Option ByteStr)
    (hs : goodTok s = true) (hsid : goodTok sid = true)
    (hrt : goodOptTok rt = true) :
    Message.try_parse (Message.into_vec ⟨s, sid, rt, p⟩) =
      .ok ⟨s, sid, rt, p⟩ := by
  obtain ⟨hsne, hsSep, hs13, hsWs, hsStr⟩ := goodTok_spec hs
  obtain ⟨hidne, hidSep, hid13, hidWs, hidStr⟩ := goodTok_spec hsid
  obtain ⟨hDSep, hD13, hDWs, hDStr⟩ := natToBytes_spec p.length
  cases rt with
  | none =>
    have hshape : Message.into_vec ⟨s, sid, none, p⟩
        = ((msgName ++ 9 :: (s ++ 9 :: (sid ++ 9 :: natToBytes p.length)))
            ++ 13 :: 10 :: p) ++ [13, 10] := by
      simp [Message.into_vec, crlf]
    have hno13 : ∀ b ∈ msgName ++ 9 :: (s ++ 9 :: (sid ++ 9 :: natToBytes p.length)),
        b ≠ 13 := by
      intro b hb
      simp only [msgName, List.mem_append, List.mem_cons] at hb
      rcases hb with h | h | h | h | h | h | h
      · simp at h; omega
      · omega
      · exact hs13 b h
      · omega
      · exact hid13 b h
      · omega
      · exact hD13 b h
    rw [hshape, msg_try_parse_frame _ _ hno13]
    have hsplit : splitSep isSepByte
        (msgName ++ 9 :: (s ++ 9 :: (sid ++ 9 :: natToBytes p.length)))
        = [msgName, s, sid, natToBytes p.length] := by
      rw [splitSep_append_sep _ (by decide) (by decide),
        splitSep_append_sep _ hsSep (by decide),
        splitSep_append_sep _ hidSep (by decide),
        splitSep_of_noSep hDSep]
    rw [hsplit]
    simp [parseNat_natToBytes]
  | some r =>
    obtain ⟨hrne, hrSep, hr13, hrWs, hrStr⟩ :=
      goodTok_spec (by simpa [goodOptTok] using hrt)
    have hshape : Message.into_vec ⟨s, sid, some r, p⟩
        = ((msgName ++ 9 :: (s ++ 9 :: (sid ++ 9 :: (r ++ 9 :: natToBytes p.length))))
            ++ 13 :: 10 :: p) ++ [13, 10] := by
      simp [Message.into_vec, crlf]
    have hno13 : ∀ b ∈ msgName ++
        9 :: (s ++ 9 :: (sid ++ 9 :: (r ++ 9 :: natToBytes p.length))), b ≠ 13 := by
      intro b hb
      simp only [msgName, List.mem_append, List.mem_cons] at hb
      rcases hb with h | h | h | h | h | h | h | h | h
      · simp at h; omega
      · omega
      · exact hs13 b h
      · omega
      · exact hid13 b h
      · omega
      · exact hr13 b h
      · omega
      · exact hD13 b h
    rw [hshape, msg_try_parse_frame _ _ hno13]
    have hsplit : splitSep isSepByte
        (msgName ++ 9 :: (s ++ 9 :: (sid ++ 9 :: (r ++ 9 :: natToBytes p.length))))
        = [msgName, s, sid, r, natToBytes p.length] := by
      rw [splitSep_append_sep _ (by decide) (by decide),
        splitSep_append_sep _ hsSep (by decide),
        splitSep_append_sep _ hidSep (by decide),
        splitSep_append_sep _ hrSep (by decide),
        splitSep_of_noSep hDSep]
    rw [hsplit]
    simp [parseNat_natToBytes]

/-- SUB parse inverts SUB encode for well-formed tokens. -/
theorem sub_try_parse_roundtrip (s sid : ByteStr) (qg : Option ByteStr)
    (hs : goodTok s = true) (hqg : goodOptTok qg = true)
    (hsid : goodTok sid = true) :
    SubCommand.try_parse (SubCommand.into_vec ⟨s, qg, sid⟩) =
      .ok ⟨s, qg, sid⟩ := by
  obtain ⟨hsne, hsSep, hs13, hsWs, hsStr⟩ := goodTok_spec hs
  obtain ⟨hidne, hidSep, hid13, hidWs, hidStr⟩ := goodTok_spec hsid
  cases qg with
  | none =>
    have hshape : SubCommand.into_vec ⟨s, none, sid⟩
        = (subName ++ 9 :: (s ++ 9 :: sid)) ++ [13, 10] := by
      simp [SubCommand.into_vec, crlf]
    rw [hshape, SubCommand.try_parse]
    rw [drop_len_sub_two, take_len_sub_two]
    simp only [crlf, ne_eq, not_true_eq_false, if_false]
    have hsplit : splitWs (subName ++ 9 :: (s ++ 9 :: sid))
        = [subName, s, sid] := by
      rw [splitWs_token_sep _ (by decide) (by decide) (by decide),
        splitWs_token_sep _ hsne hsStr (by decide),
        splitWs_single hidne hidStr]
    rw [hsplit]
    simp
  | some q =>
    obtain ⟨hqne, hqSep, hq13, hqWs, hqStr⟩ :=
      goodTok_spec (by simpa [goodOptTok] using hqg)
    have hshape : SubCommand.into_vec ⟨s, some q, sid⟩
        = (subName ++ 9 :: (s ++ 9 :: (q ++ 9 :: sid))) ++ [13, 10] := by
      simp [SubCommand.into_vec, crlf]
    rw [hshape, SubCommand.try_parse]
    rw [drop_len_sub_two, take_len_sub_two]
    simp only [crlf, ne_eq, not_true_eq_false, if_false]
    have hsplit : splitWs (subName ++ 9 :: (s ++ 9 :: (q ++ 9 :: sid)))
        = [subName, s, q, sid] := by
      rw [splitWs_token_sep _ (by decide) (by decide) (by decide),
        splitWs_token_sep _ hsne hsStr (by decide),
        splitWs_token_sep _ hqne hqStr (by decide),
        splitWs_single hidne hidStr]
    rw [hsplit]
    simp

/-- UNSUB parse inverts UNSUB encode for a well-formed SID. -/
theorem unsub_try_parse_roundtrip (sid : ByteStr) (mm : Option Nat)
    (hsid : goodTok sid = true) :
    UnsubCommand.try_parse (UnsubCommand.into_vec ⟨sid, mm⟩) =
      .ok ⟨sid, mm⟩ := by
  obtain ⟨hidne, hidSep, hid13, hidWs, hidStr⟩ := goodTok_spec hsid
  cases mm with
  | none =>
    have hshape : UnsubCommand.into_vec ⟨sid, none⟩
        = (unsubName ++ 9 :: sid) ++ [13, 10] := by
      simp [UnsubCommand.into_vec, crlf]
    rw [hshape, UnsubCommand.try_parse]
    rw [drop_len_sub_two, take_len_sub_two]
    simp only [crlf, ne_eq, not_true_eq_false, if_false]
    have hsplit : splitSep isSepByte (unsubName ++ 9 :: sid)
        = [unsubName, sid] := by
      rw [splitSep_append_sep _ (by decide) (by decide),
        splitSep_of_noSep hidSep]
    rw [hsplit]
    simp
  | some m =>
    obtain ⟨hDSep, hD13, hDWs, hDStr⟩ := natToBytes_spec m
    have hshape : UnsubCommand.into_vec ⟨sid, some m⟩
        = (unsubName ++ 9 :: (sid ++ 9 :: natToBytes m)) ++ [13, 10] := by
      simp [UnsubCommand.into_vec, crlf]
    rw [hshape, UnsubCommand.try_parse]
    rw [drop_len_sub_two, take_len_sub_two]
    simp only [crlf, ne_eq, not_true_eq_false, if_false]
    have hsplit : splitSep isSepByte (unsubName ++ 9 :: (sid ++ 9 :: natToBytes m))
        = [unsubName, sid, natToBytes m] := by
      rw [splitSep_append_sep _ (by decide) (by decide),
        splitSep_append_sep _ hidSep (by decide),
        splitSep_of_noSep hDSep]
    rw [hsplit]
    simp [parseNat_natToBytes]

/-- Codec-level PUB round-trip: encode, then one `decode` call on the
whole buffer, yields the command back, consuming every byte — provided
the payload embeds no CRLF pair. -/
theorem pub_decode_roundtrip (s p : ByteStr) (rt : Option ByteStr)
    (hs : goodTok s = true) (hrt : goodOptTok rt = true)
    (hp : noCrlfIn p = true) :
    OpCodec.decode ⟨0⟩ (PubCommand.into_vec ⟨s, rt, p⟩) =
      (⟨0⟩, [], .item (.PUB ⟨s, rt, p⟩)) := by
  have hpn : findCrlf p = none := by
    rw [noCrlfIn, Option.isNone_iff_eq_none] at hp
    exact hp
  obtain ⟨hsne, hsSep, hs13, hsWs, hsStr⟩ := goodTok_spec hs
  obtain ⟨hDSep, hD13, hDWs, hDStr⟩ := natToBytes_spec p.length
  have hscan : OpCodec.scan 0 (PubCommand.into_vec ⟨s, rt, p⟩) =
      .frame 3 (PubCommand.into_vec ⟨s, rt, p⟩).length := by
    cases rt with
    | none =>
      have hshape : PubCommand.into_vec ⟨s, none, p⟩
          = pubName ++ 9 :: ((s ++ 9 :: natToBytes p.length)
              ++ 13 :: 10 :: (p ++ [13, 10])) := by
        simp [PubCommand.into_vec, crlf]
      rw [hshape]
      rw [scan_encoded_pubmsg pubName _ p (by decide) (by decide) (by decide)
        (Or.inl rfl)
        (by
          intro b hb
          rcases List.mem_append.mp hb with h | h
          · exact hs13 b h
          · rcases List.mem_cons.mp h with h9 | h
            · omega
            · exact hD13 b h)
        hpn]
      rw [ScanRes.frame.injEq]
      constructor
      · rfl
      · simp
        omega
    | some r =>
      obtain ⟨hrne, hrSep, hr13, hrWs, hrStr⟩ :=
        goodTok_spec (by simpa [goodOptTok] using hrt)
      have hshape : PubCommand.into_vec ⟨s, some r, p⟩
          = pubName ++ 9 :: ((s ++ 9 :: (r ++ 9 :: natToBytes p.length))
              ++ 13 :: 10 :: (p ++ [13, 10])) := by
        simp [PubCommand.into_vec, crlf]
      rw [hshape]
      rw [scan_encoded_pubmsg pubName _ p (by decide) (by decide) (by decide)
        (Or.inl rfl)
        (by
          intro b hb
          rcases List.mem_append.mp hb with h | h
          · exact hs13 b h
          · rcases List.mem_cons.mp h with h9 | h
            · omega
            · rcases List.mem_append.mp h with h2 | h2
              · exact hr13 b h2
              · rcases List.mem_cons.mp h2 with h9 | h3
                · omega
                · exact hD13 b h3)
        hpn]
      rw [ScanRes.frame.injEq]
      constructor
      · rfl
      · simp
        omega
  rw [decode_of_scan_frame hscan]
  rw [List.take_length, List.drop_length]
  have htk3 : (PubCommand.into_vec ⟨s, rt, p⟩).take 3 = pubName := by
    cases rt <;>
      simp only [PubCommand.into_vec] <;>
      rw [show (3 : Nat) = pubName.length from rfl] <;>
      rw [show pubName ++ [9] ++ s = pubName ++ ([9] ++ s) by simp] <;>
      simp [List.take_left, pubName]
  rw [from_bytes_pub htk3, pub_try_parse_roundtrip s p rt hs hrt]
  rfl

/-- Codec-level MSG round-trip, like `pub_decode_roundtrip`. -/
theorem msg_decode_roundtrip (s sid p : ByteStr) (rt : Option ByteStr)
    (hs : goodTok s = true) (hsid : goodTok sid = true)
    (hrt : goodOptTok rt = true) (hp : noCrlfIn p = true) :
    OpCodec.decode ⟨0⟩ (Message.into_vec ⟨s, sid, rt, p⟩) =
      (⟨0⟩, [], .item (.MSG ⟨s, sid, rt, p⟩)) := by
  have hpn : findCrlf p = none := by
    rw [noCrlfIn, Option.isNone_iff_eq_none] at hp
    exact hp
  obtain ⟨hsne, hsSep, hs13, hsWs, hsStr⟩ := goodTok_spec hs
  obtain ⟨hidne, hidSep, hid13, hidWs, hidStr⟩ := goodTok_spec hsid
  obtain ⟨hDSep, hD13, hDWs, hDStr⟩ := natToBytes_spec p.length
  have hscan : OpCodec.scan 0 (Message.into_vec ⟨s, sid, rt, p⟩) =
      .frame 3 (Message.into_vec ⟨s, sid, rt, p⟩).length := by
    cases rt with
    | none =>
      have hshape : Message.into_vec ⟨s, sid, none, p⟩
          = msgName ++ 9 :: ((s ++ 9 :: (sid ++ 9 :: natToBytes p.length))
              ++ 13 :: 10 :: (p ++ [13, 10])) := by
        simp [Message.into_vec, crlf]
      rw [hshape]
      rw [scan_encoded_pubmsg msgName _ p (by decide) (by decide) (by decide)
        (Or.inr rfl)
        (by
          intro b hb
          rcases List.mem_append.mp hb with h | h
          · exact hs13 b h
          · rcases List.mem_cons.mp h with h9 | h
            · omega
            · rcases List.mem_append.mp h with h2 | h2
              · exact hid13 b h2
              · rcases List.mem_cons.mp h2 with h9 | h3
                · omega
                · exact hD13 b h3)
        hpn]
      rw [ScanRes.frame.injEq]
      constructor
      · rfl
      · simp
        omega
    | some r =>
      obtain ⟨hrne, hrSep, hr13, hrWs, hrStr⟩ :=
        goodTok_spec (by simpa [goodOptTok] using hrt)
      have hshape : Message.into_vec ⟨s, sid, some r, p⟩
          = msgName ++ 9 :: ((s ++ 9 :: (sid ++ 9 :: (r ++ 9 :: natToBytes p.length)))
              ++ 13 :: 10 :: (p ++ [13, 10])) := by
        simp [Message.into_vec, crlf]
      rw [hshape]
      rw [scan_encoded_pubmsg msgName _ p (by decide) (by decide) (by decide)
        (Or.inr rfl)
        (by
          intro b hb
          rcases List.mem_append.mp hb with h | h
          · exact hs13 b h
          · rcases List.mem_cons.mp h with h9 | h
            · omega
            · rcases List.mem_append.mp h with h2 | h2
              · exact hid13 b h2
              · rcases List.mem_cons.mp h2 with h9 | h3
                · omega
                · rcases List.mem_append.mp h3 with h4 | h4
                  · exact hr13 b h4
                  · rcases List.mem_cons.mp h4 with h9 | h5
                    · omega
                    · exact hD13 b h5)
        hpn]
      rw [ScanRes.frame.injEq]
      constructor
      · rfl
      · simp
        omega
  rw [decode_of_scan_frame hscan]
  rw [List.take_length, List.drop_length]
  have htk3 : (Message.into_vec ⟨s, sid, rt, p⟩).take 3 = msgName := by
    cases rt <;>
      simp only [Message.into_vec] <;>
      rw [show (3 : Nat) = msgName.length from rfl] <;>
      rw [show msgName ++ [9] ++ s = msgName ++ ([9] ++ s) by simp] <;>
      simp [List.take_left, msgName]
  rw [from_bytes_msg htk3, msg_try_parse_roundtrip s sid p rt hs hsid hrt]
  rfl

/-- Codec-level SUB round-trip. -/
theorem sub_decode_roundtrip (s sid : ByteStr) (qg : Option ByteStr)
    (hs : goodTok s = true) (hqg : goodOptTok qg = true)
    (hsid : goodTok sid = true) :
    OpCodec.decode ⟨0⟩ (SubCommand.into_vec ⟨s, qg, sid⟩) =
      (⟨0⟩, [], .item (.SUB ⟨s, qg, sid⟩)) := by
  obtain ⟨hsne, hsSep, hs13, hsWs, hsStr⟩ := goodTok_spec hs
  obtain ⟨hidne, hidSep, hid13, hidWs, hidStr⟩ := goodTok_spec hsid
  have hscan : OpCodec.scan 0 (SubCommand.into_vec ⟨s, qg, sid⟩) =
      .frame 3 (SubCommand.into_vec ⟨s, qg, sid⟩).length := by
    cases qg with
    | none =>
      have hshape : SubCommand.into_vec ⟨s, none, sid⟩
          = subName ++ 9 :: ((s ++ 9 :: sid) ++ [13, 10]) := by
        simp [SubCommand.into_vec, crlf]
      rw [hshape]
      rw [scan_encoded_textual subName _ (by decide) (by decide) (by decide)
        (by decide)
        (by
          intro b hb
          rcases List.mem_append.mp hb with h | h
          · exact hs13 b h
          · rcases List.mem_cons.mp h with h9 | h
            · omega
            · exact hid13 b h)]
      rw [ScanRes.frame.injEq]
      constructor
      · rfl
      · simp
        omega
    | some q =>
      obtain ⟨hqne, hqSep, hq13, hqWs, hqStr⟩ :=
        goodTok_spec (by simpa [goodOptTok] using hqg)
      have hshape : SubCommand.into_vec ⟨s, some q, sid⟩
          = subName ++ 9 :: ((s ++ 9 :: (q ++ 9 :: sid)) ++ [13, 10]) := by
        simp [SubCommand.into_vec, crlf]
      rw [hshape]
      rw [scan_encoded_textual subName _ (by decide) (by decide) (by decide)
        (by decide)
        (by
          intro b hb
          rcases List.mem_append.mp hb with h | h
          · exact hs13 b h
          · rcases List.mem_cons.mp h with h9 | h
            · omega
            · rcases List.mem_append.mp h with h2 | h2
              · exact hq13 b h2
              · rcases List.mem_cons.mp h2 with h9 | h3
                · omega
                · exact hid13 b h3)]
      rw [ScanRes.frame.injEq]
      constructor
      · rfl
      · simp
        omega
  rw [decode_of_scan_frame hscan]
  rw [List.take_length, List.drop_length]
  have htk3 : (SubCommand.into_vec ⟨s, qg, sid⟩).take 3 = subName := by
    cases qg <;>
      simp only [SubCommand.into_vec] <;>
      rw [show (3 : Nat) = subName.length from rfl] <;>
      rw [show subName ++ [9] ++ s = subName ++ ([9] ++ s) by simp] <;>
      simp [List.take_left, subName]
  rw [from_bytes_sub htk3, sub_try_parse_roundtrip s sid qg hs hqg hsid]
  rfl

/-- Codec-level UNSUB round-trip. -/
theorem unsub_decode_roundtrip (sid : ByteStr) (mm : Option Nat)
    (hsid : goodTok sid = true) :
    OpCodec.decode ⟨0⟩ (UnsubCommand.into_vec ⟨sid, mm⟩) =
      (⟨0⟩, [], .item (.UNSUB ⟨sid, mm⟩)) := by
  obtain ⟨hidne, hidSep, hid13, hidWs, hidStr⟩ := goodTok_spec hsid
  have hscan : OpCodec.scan 0 (UnsubCommand.into_vec ⟨sid, mm⟩) =
      .frame 5 (UnsubCommand.into_vec ⟨sid, mm⟩).length := by
    cases mm with
    | none =>
      have hshape : UnsubCommand.into_vec ⟨sid, none⟩
          = unsubName ++ 9 :: (sid ++ [13, 10]) := by
        simp [UnsubCommand.into_vec, crlf]
      rw [hshape]
      rw [scan_encoded_textual unsubName _ (by decide) (by decide) (by decide)
        (by decide) (fun b hb => hid13 b hb)]
      rw [ScanRes.frame.injEq]
      constructor
      · rfl
      · simp
        omega
    | some m =>
      obtain ⟨hDSep, hD13, hDWs, hDStr⟩ := natToBytes_spec m
      have hshape : UnsubCommand.into_vec ⟨sid, some m⟩
          = unsubName ++ 9 :: ((sid ++ 9 :: natToBytes m) ++ [13, 10]) := by
        simp [UnsubCommand.into_vec, crlf]
      rw [hshape]
      rw [scan_encoded_textual unsubName _ (by decide) (by decide) (by decide)
        (by decide)
        (by
          intro b hb
          rcases List.mem_append.mp hb with h | h
          · exact hid13 b h
          · rcases List.mem_cons.mp h with h9 | h
            · omega
            · exact hD13 b h)]
      rw [ScanRes.frame.injEq]
      constructor
      · rfl
      · simp
        omega
  rw [decode_of_scan_frame hscan]
  rw [List.take_length, List.drop_length]
  have htk5 : (UnsubCommand.into_vec ⟨sid, mm⟩).take 5 = unsubName := by
    cases mm <;>
      simp only [UnsubCommand.into_vec] <;>
      rw [show (5 : Nat) = unsubName.length from rfl] <;>
      rw [show unsubName ++ [9] ++ sid = unsubName ++ ([9] ++ sid) by simp] <;>
      simp [List.take_left, unsubName]
  rw [from_bytes_unsub htk5, unsub_try_parse_roundtrip sid mm hsid]
  rfl

/-- `from_bytes`-level PUB round-trip, any payload. -/
theorem pub_from_bytes_roundtrip (c : PubCommand)
    (hs : goodTok c.subject = true) (hrt : goodOptTok c.reply_to = true) :
    Op.from_bytes c.into_vec 3 = .ok (.PUB c) := by
  obtain ⟨s, rt, p⟩ := c
  have htk3 : (PubCommand.into_vec ⟨s, rt, p⟩).take 3 = pubName := by
    cases rt <;>
      simp only [PubCommand.into_vec] <;>
      rw [show (3 : Nat) = pubName.length from rfl] <;>
      rw [show pubName ++ [9] ++ s = pubName ++ ([9] ++ s) by simp] <;>
      simp [List.take_left, pubName]
  rw [from_bytes_pub htk3, pub_try_parse_roundtrip s p rt hs hrt]
  rfl

/-- `from_bytes`-level MSG round-trip, any payload. -/
theorem msg_from_bytes_roundtrip (m : Message)
    (hs : goodTok m.subject = true) (hsid : goodTok m.sid = true)
    (hrt : goodOptTok m.reply_to = true) :
    Op.from_bytes m.into_vec 3 = .ok (.MSG m) := by
  obtain ⟨s, sid, rt, p⟩ := m
  have htk3 : (Message.into_vec ⟨s, sid, rt, p⟩).take 3 = msgName := by
    cases rt <;>
      simp only [Message.into_vec] <;>
      rw [show (3 : Nat) = msgName.length from rfl] <;>
      rw [show msgName ++ [9] ++ s = msgName ++ ([9] ++ s) by simp] <;>
      simp [List.take_left, msgName]
  rw [from_bytes_msg htk3, msg_try_parse_roundtrip s sid p rt hs hsid hrt]
  rfl

/-- C1 counterexample: the round-trip fails as stated.  For the PUB
command with subject `"FOO"` and payload `"a\r\nb"` — a payload with an
embedded CRLF — the codec cuts the frame at the first CRLF inside the
payload, so `decode(encode(C))` is the error `CommandMalformed` (with
the payload remainder left in the buffer), not `C`. -/
theorem c1_counterexample :
    OpCodec.decode ⟨0⟩
        (Op.into_bytes (.PUB ⟨[70, 79, 79], none, [97, 13, 10, 98]⟩)) =
      (⟨0⟩, [98, 13, 10], .fail .commandMalformed) ∧
    (OpCodec.decode ⟨0⟩
        (Op.into_bytes (.PUB ⟨[70, 79, 79], none, [97, 13, 10, 98]⟩))).2.2 ≠
      .item (.PUB ⟨[70, 79, 79], none, [97, 13, 10, 98]⟩) := by
  constructor
  · decide
  · decide

/-- C1 (amended): for the textual command variants — PUB, SUB, UNSUB,
MSG, PING, PONG, +OK — with non-empty whitespace/CR/LF-free tokens,
in-range `u32` fields, and (for PUB/MSG) a payload embedding no CRLF
pair, one codec `decode` call on `encode(C)` consumes the whole buffer
and yields `C` back.  PUB and MSG commands with arbitrary payloads —
embedded CRLF included — still round-trip through the direct parser
`Op::from_bytes` applied to the whole frame; it is only the codec's
frame-boundary scan that cuts such frames short (see the
counterexample).  Excluded: `-ERR` (parsing wraps the raw bytes of
`buf[1..]`, `ERR ` prefix and trailing CRLF included, so encode/decode
cannot agree) and the JSON-bodied INFO/CONNECT (delegated to the
external `serde_json`, outside the byte-level model). -/
theorem c1_roundtrip_amended :
    (∀ op : Op, Op.goodForRoundtrip op = true →
      OpCodec.decode ⟨0⟩ op.into_bytes = (⟨0⟩, [], .item op)) ∧
    (∀ c : PubCommand, goodTok c.subject = true →
      goodOptTok c.reply_to = true →
      Op.from_bytes c.into_vec 3 = .ok (.PUB c)) ∧
    (∀ m : Message, goodTok m.subject = true → goodTok m.sid = true →
      goodOptTok m.reply_to = true →
      Op.from_bytes m.into_vec 3 = .ok (.MSG m)) := by
  refine ⟨?_, pub_from_bytes_roundtrip, msg_from_bytes_roundtrip⟩
  intro op hop
  cases op with
  | PUB c =>
    obtain ⟨s, rt, p⟩ := c
    simp only [Op.goodForRoundtrip, Bool.and_eq_true] at hop
    exact pub_decode_roundtrip s p rt hop.1.1 hop.1.2 hop.2
  | MSG m =>
    obtain ⟨s, sid, rt, p⟩ := m
    simp only [Op.goodForRoundtrip, Bool.and_eq_true] at hop
    exact msg_decode_roundtrip s sid p rt hop.1.1.1 hop.1.1.2 hop.1.2 hop.2
  | SUB c =>
    obtain ⟨s, qg, sid⟩ := c
    simp only [Op.goodForRoundtrip, Bool.and_eq_true] at hop
    exact sub_decode_roundtrip s sid qg hop.1.1 hop.1.2 hop.2
  | UNSUB c =>
    obtain ⟨sid, mm⟩ := c
    simp only [Op.goodForRoundtrip, Bool.and_eq_true] at hop
    exact unsub_decode_roundtrip sid mm hop.1
  | PING => decide
  | PONG => decide
  | OK => decide
  | ERR e => simp [Op.goodForRoundtrip] at hop

/-- Witness for C1 (amended) at concrete commands: a PUB with payload
`"toto"` round-trips through the codec, and a PUB with payload
`"a\r\nb"` (embedded CRLF) round-trips through `Op::from_bytes`. -/
theorem c1_roundtrip_amended_witness :
    Op.goodForRoundtrip (.PUB ⟨[70, 79, 79], none, [116, 111, 116, 111]⟩)
      = true ∧
    OpCodec.decode ⟨0⟩
        (Op.into_bytes (.PUB ⟨[70, 79, 79], none, [116, 111, 116, 111]⟩)) =
      (⟨0⟩, [], .item (.PUB ⟨[70, 79, 79], none, [116, 111, 116, 111]⟩)) ∧
    goodTok (PubCommand.mk [70, 79, 79] none [97, 13, 10, 98]).subject
      = true ∧
    Op.from_bytes (PubCommand.mk [70, 79, 79] none [97, 13, 10, 98]).into_vec 3
      = .ok (.PUB ⟨[70, 79, 79], none, [97, 13, 10, 98]⟩) := by
  refine ⟨by decide, c1_roundtrip_amended.1 _ (by decide), by decide, ?_⟩
  exact c1_roundtrip_amended.2.1 ⟨[70, 79, 79], none, [97, 13, 10, 98]⟩
    (by decide) (by decide)

/-- C7: a complete PUB or MSG frame whose declared payload-length field
differs from the observed payload length parses to the error
`CommandMalformed`; and in general, once the codec's scan finds a
complete frame, `decode` returns exactly what `Op::from_bytes` produces
— an item or an error — and never "need more".  (The `declared < 2^64`
bound keeps the quantified length inside the range Rust's `usize` parse
accepts.) -/
theorem c7_malformed_frame_error :
    (∀ (s p : ByteStr) (rt : Option ByteStr) (declared : Nat),
      goodTok s = true → goodOptTok rt = true → declared ≠ p.length →
      declared < 2 ^ 64 →
      PubCommand.try_parse (mkPubFrame s rt declared p) =
        .error .commandMalformed) ∧
    (∀ (s sid p : ByteStr) (rt : Option ByteStr) (declared : Nat),
      goodTok s = true → goodTok sid = true → goodOptTok rt = true →
      declared ≠ p.length → declared < 2 ^ 64 →
      Message.try_parse (mkMsgFrame s sid rt declared p) =
        .error .commandMalformed) ∧
    (∀ (buf : ByteStr) (ce ep : Nat), OpCodec.scan 0 buf = .frame ce ep →
      OpCodec.decode ⟨0⟩ buf =
        (⟨0⟩, buf.drop ep,
          match Op.from_bytes (buf.take ep) ce with
          | .ok op => .item op
          | .error e => .fail e) ∧
      (OpCodec.decode ⟨0⟩ buf).2.2 ≠ .needMore) := by
  refine ⟨?_, ?_, ?_⟩
  · intro s p rt declared hs hrt hd _
    obtain ⟨hsne, hsSep, hs13, hsWs, hsStr⟩ := goodTok_spec hs
    obtain ⟨hDSep, hD13, hDWs, hDStr⟩ := natToBytes_spec declared
    cases rt with
    | none =>
      have hshape : mkPubFrame s none declared p
          = ((pubName ++ 9 :: (s ++ 9 :: natToBytes declared))
              ++ 13 :: 10 :: p) ++ [13, 10] := by
        simp [mkPubFrame, crlf]
      have hno13 : ∀ b ∈ pubName ++ 9 :: (s ++ 9 :: natToBytes declared),
          b ≠ 13 := by
        intro b hb
        simp only [pubName, List.mem_append, List.mem_cons] at hb
        rcases hb with h | h | h | h | h
        · simp at h; omega
        · omega
        · exact hs13 b h
        · omega
        · exact hD13 b h
      rw [hshape, pub_try_parse_frame _ _ hno13]
      rw [splitSep_append_sep _ (by decide) (by decide),
        splitSep_append_sep _ hsSep (by decide),
        splitSep_of_noSep hDSep]
      simp [parseNat_natToBytes]
      exact fun h => hd h.symm
    | some r =>
      obtain ⟨hrne, hrSep, hr13, hrWs, hrStr⟩ :=
        goodTok_spec (by simpa [goodOptTok] using hrt)
      have hshape : mkPubFrame s (some r) declared p
          = ((pubName ++ 9 :: (s ++ 9 :: (r ++ 9 :: natToBytes declared)))
              ++ 13 :: 10 :: p) ++ [13, 10] := by
        simp [mkPubFrame, crlf]
      have hno13 : ∀ b ∈ pubName ++
          9 :: (s ++ 9 :: (r ++ 9 :: natToBytes declared)), b ≠ 13 := by
        intro b hb
        simp only [pubName, List.mem_append, List.mem_cons] at hb
        rcases hb with h | h | h | h | h | h | h
        · simp at h; omega
        · omega
        · exact hs13 b h
        · omega
        · exact hr13 b h
        · omega
        · exact hD13 b h
      rw [hshape, pub_try_parse_frame _ _ hno13]
      rw [splitSep_append_sep _ (by decide) (by decide),
        splitSep_append_sep _ hsSep (by decide),
        splitSep_append_sep _ hrSep (by decide),
        splitSep_of_noSep hDSep]
      simp [parseNat_natToBytes]
      exact fun h => hd h.symm
  · intro s sid p rt declared hs hsid hrt hd _
    obtain ⟨hsne, hsSep, hs13, hsWs, hsStr⟩ := goodTok_spec hs
    obtain ⟨hidne, hidSep, hid13, hidWs, hidStr⟩ := goodTok_spec hsid
    obtain ⟨hDSep, hD13, hDWs, hDStr⟩ := natToBytes_spec declared
    cases rt with
    | none =>
      have hshape : mkMsgFrame s sid none declared p
          = ((msgName ++ 9 :: (s ++ 9 :: (sid ++ 9 :: natToBytes declared)))
              ++ 13 :: 10 :: p) ++ [13, 10] := by
        simp [mkMsgFrame, crlf]
      have hno13 : ∀ b ∈ msgName ++
          9 :: (s ++ 9 :: (sid ++ 9 :: natToBytes declared)), b ≠ 13 := by
        intro b hb
        simp only [msgName, List.mem_append, List.mem_cons] at hb
        rcases hb with h | h | h | h | h | h | h
        · simp at h; omega
        · omega
        · exact hs13 b h
        · omega
        · exact hid13 b h
        · omega
        · exact hD13 b h
      rw [hshape, msg_try_parse_frame _ _ hno13]
      rw [splitSep_append_sep _ (by decide) (by decide),
        splitSep_append_sep _ hsSep (by decide),
        splitSep_append_sep _ hidSep (by decide),
        splitSep_of_noSep hDSep]
      simp [parseNat_natToBytes]
      exact fun h => hd h.symm
    | some r =>
      obtain ⟨hrne, hrSep, hr13, hrWs, hrStr⟩ :=
        goodTok_spec (by simpa [goodOptTok] using hrt)
      have hshape : mkMsgFrame s sid (some r) declared p
          = ((msgName ++ 9 :: (s ++ 9 :: (sid ++ 9 :: (r ++ 9 :: natToBytes declared))))
              ++ 13 :: 10 :: p) ++ [13, 10] := by
        simp [mkMsgFrame, crlf]
      have hno13 : ∀ b ∈ msgName ++
          9 :: (s ++ 9 :: (sid ++ 9 :: (r ++ 9 :: natToBytes declared))),
          b ≠ 13 := by
        intro b hb
        simp only [msgName, List.mem_append, List.mem_cons] at hb
        rcases hb with h | h | h | h | h | h | h | h | h
        · simp at h; omega
        · omega
        · exact hs13 b h
        · omega
        · exact hid13 b h
        · omega
        · exact hr13 b h
        · omega
        · exact hD13 b h
      rw [hshape, msg_try_parse_frame _ _ hno13]
      rw [splitSep_append_sep _ (by decide) (by decide),
        splitSep_append_sep _ hsSep (by decide),
        splitSep_append_sep _ hidSep (by decide),
        splitSep_append_sep _ hrSep (by decide),
        splitSep_of_noSep hDSep]
      simp [parseNat_natToBytes]
      exact fun h => hd h.symm
  · intro buf ce ep h
    refine ⟨decode_of_scan_frame h, ?_⟩
    rw [decode_of_scan_frame h]
    cases Op.from_bytes (buf.take ep) ce <;> simp

/-- Witness for C7: the frame `PUB\tFOO\t5\r\nHello NATS!\r\n`
(declared 5, observed 11) parses to `CommandMalformed`, and the codec,
having scanned that complete frame, fails rather than asking for more. -/
theorem c7_malformed_frame_error_witness :
    goodTok [70, 79, 79] = true ∧
    (5 : Nat) ≠ ([72, 101, 108, 108, 111, 32, 78, 65, 84, 83, 33] : ByteStr).length ∧
    PubCommand.try_parse
      (mkPubFrame [70, 79, 79] none 5
        [72, 101, 108, 108, 111, 32, 78, 65, 84, 83, 33]) =
      .error .commandMalformed ∧
    OpCodec.scan 0
      (mkPubFrame [70, 79, 79] none 5
        [72, 101, 108, 108, 111, 32, 78, 65, 84, 83, 33]) = .frame 3 24 ∧
    (OpCodec.decode ⟨0⟩
      (mkPubFrame [70, 79, 79] none 5
        [72, 101, 108, 108, 111, 32, 78, 65, 84, 83, 33])).2.2 ≠
      .needMore := by
  refine ⟨by decide, by decide, ?_, by decide, ?_⟩
  · exact c7_malformed_frame_error.1 [70, 79, 79]
      [72, 101, 108, 108, 111, 32, 78, 65, 84, 83, 33] none 5 (by decide)
      (by decide) (by decide) (by norm_num)
  · exact (c7_malformed_frame_error.2.2
      (mkPubFrame [70, 79, 79] none 5
        [72, 101, 108, 108, 111, 32, 78, 65, 84, 83, 33]) 3 24 (by decide)).2

/-- Eliminate a completed scan into its constituent lookups. -/
theorem scan_frame_elim {ni : Nat} {buf : ByteStr} {ce ep : Nat}
    (h : OpCodec.scan ni buf = .frame ce ep) :
    buf ≠ [] ∧ findByteFrom isWsByte buf ni = some ce ∧
      Op.command_exists (buf.take ce) = true ∧
      ∃ ph, findCrlfFrom buf ce = some ph ∧
        ((¬ (buf.take ce = pubName ∨ buf.take ce = msgName) ∧ ep = ph + 2) ∨
         ((buf.take ce = pubName ∨ buf.take ce = msgName) ∧
           ∃ q, findCrlfFrom buf (ph + 2) = some q ∧ ep = q + 2)) := by
  rw [OpCodec.scan] at h
  by_cases hb : buf = []
  · rw [if_pos hb] at h; simp at h
  · rw [if_neg hb] at h
    cases hfw : findByteFrom isWsByte buf ni with
    | none => rw [hfw] at h; simp at h
    | some ce' =>
      rw [hfw] at h
      dsimp only at h
      by_cases hex : Op.command_exists (buf.take ce') = true
      · rw [if_neg (by simp [hex])] at h
        cases hcr : findCrlfFrom buf ce' with
        | none => rw [hcr] at h; simp at h
        | some ph =>
          rw [hcr] at h
          dsimp only at h
          by_cases hpm : buf.take ce' = pubName ∨ buf.take ce' = msgName
          · rw [if_pos hpm] at h
            cases hq : findCrlfFrom buf (ph + 2) with
            | none => rw [hq] at h; simp at h
            | some q =>
              rw [hq] at h
              dsimp only at h
              rw [ScanRes.frame.injEq] at h
              obtain ⟨rfl, rfl⟩ := h
              exact ⟨hb, rfl, hex, ph, hcr, Or.inr ⟨hpm, q, hq, rfl⟩⟩
          · rw [if_neg hpm] at h
            rw [ScanRes.frame.injEq] at h
            obtain ⟨rfl, rfl⟩ := h
            exact ⟨hb, rfl, hex, ph, hcr, Or.inl ⟨hpm, rfl⟩⟩
      · rw [if_pos (by simp [hex])] at h
        simp at h

/-- Rebuild a completed scan from its constituent lookups. -/
theorem scan_frame_intro {ni : Nat} {buf : ByteStr} {ce ep : Nat}
    (hb : buf ≠ []) (hfw : findByteFrom isWsByte buf ni = some ce)
    (hex : Op.command_exists (buf.take ce) = true)
    (hrest : ∃ ph, findCrlfFrom buf ce = some ph ∧
      ((¬ (buf.take ce = pubName ∨ buf.take ce = msgName) ∧ ep = ph + 2) ∨
       ((buf.take ce = pubName ∨ buf.take ce = msgName) ∧
         ∃ q, findCrlfFrom buf (ph + 2) = some q ∧ ep = q + 2))) :
    OpCodec.scan ni buf = .frame ce ep := by
  obtain ⟨ph, hcr, hcase⟩ := hrest
  rw [OpCodec.scan, if_neg hb, hfw]
  dsimp only
  rw [if_neg (by simp [hex]), hcr]
  dsimp only
  rcases hcase with ⟨hpm, rfl⟩ | ⟨hpm, q, hq, rfl⟩
  · rw [if_neg hpm]
  · rw [if_pos hpm, hq]

/-- A found CRLF pair lies fully inside the buffer. -/
theorem findCrlfFrom_bound {buf : ByteStr} {s q : Nat}
    (h : findCrlfFrom buf s = some q) : q + 2 ≤ buf.length := by
  rw [findCrlfFrom] at h
  cases hk : findCrlf (buf.drop s) with
  | none => rw [hk] at h; simp at h
  | some k =>
    rw [hk] at h
    simp only [Option.map_some', Option.some.injEq] at h
    have hb := findCrlf_bound hk
    rw [List.length_drop] at hb
    omega

/-- A completed scan's frame end lies inside the buffer, and the command
name end lies strictly inside. -/
theorem scan_frame_bounds {ni : Nat} {buf : ByteStr} {ce ep : Nat}
    (h : OpCodec.scan ni buf = .frame ce ep) :
    ep ≤ buf.length ∧ ce < buf.length := by
  obtain ⟨hb, hfw, hex, ph, hcr, hcase⟩ := scan_frame_elim h
  have hce : ce < buf.length := by
    rw [findByteFrom] at hfw
    cases hk : findByte isWsByte (buf.drop ni) with
    | none => rw [hk] at hfw; simp at hfw
    | some k =>
      rw [hk] at hfw
      simp only [Option.map_some', Option.some.injEq] at hfw
      have := findByte_lt_length hk
      rw [List.length_drop] at this
      omega
  rcases hcase with ⟨hpm, rfl⟩ | ⟨hpm, q, hq, rfl⟩
  · exact ⟨findCrlfFrom_bound hcr, hce⟩
  · exact ⟨findCrlfFrom_bound hq, hce⟩

/-- The scan-resume cursor is irrelevant while the skipped front holds no
hit: the cursor optimization never changes the scan result. -/
theorem findByteFrom_inv {p : Nat → Bool} : ∀ (ni : Nat) (buf : ByteStr),
    ni ≤ buf.length → (∀ b ∈ buf.take ni, p b = false) →
    findByteFrom p buf ni = findByte p buf := by
  intro ni
  induction ni with
  | zero => intro buf _ _; exact findByteFrom_zero p buf
  | succ ni ih =>
    intro buf hle hws
    cases buf with
    | nil => simp at hle
    | cons x t =>
      have hx : p x = false := hws x (by simp)
      have hws' : ∀ b ∈ t.take ni, p b = false := fun b hb =>
        hws b (by simp [hb])
      have hle' : ni ≤ t.length := by simpa using hle
      have iht := ih t hle' hws'
      rw [findByteFrom] at iht ⊢
      rw [show (x :: t).drop (ni + 1) = t.drop ni from rfl]
      rw [show findByte p (x :: t) = (findByte p t).map (· + 1) from by
        rw [findByte]; simp [hx]]
      rw [← iht]
      cases hk : findByte p (t.drop ni)
      · simp
      · rename_i v
        simp only [Option.map_some']
        refine congrArg some ?_
        show ni + 1 + v = ni + v + 1
        omega

/-- The scan result of a completed frame does not depend on the cursor,
as long as the skipped front is whitespace-free. -/
theorem scan_inv_frame_iff {ni : Nat} {buf : ByteStr} {ce ep : Nat}
    (hle : ni ≤ buf.length)
    (hws : ∀ b ∈ buf.take ni, isWsByte b = false) :
    OpCodec.scan ni buf = .frame ce ep ↔ OpCodec.scan 0 buf = .frame ce ep := by
  have hfw : findByteFrom isWsByte buf ni = findByteFrom isWsByte buf 0 := by
    rw [findByteFrom_inv ni buf hle hws, findByteFrom_zero]
  constructor <;> intro h <;>
    obtain ⟨hb, hf, hex, rest⟩ := scan_frame_elim h
  · exact scan_frame_intro hb (by rw [← hfw]; exact hf) hex rest
  · exact scan_frame_intro hb (by rw [hfw]; exact hf) hex rest

/-- A frame completed inside a front part stays the same frame when the
buffer is extended: frame boundaries are prefix-stable. -/
theorem scan_frame_append {buf ext : ByteStr} {ce ep : Nat}
    (h : OpCodec.scan 0 buf = .frame ce ep) :
    OpCodec.scan 0 (buf ++ ext) = .frame ce ep := by
  obtain ⟨hb, hf, hex, ph, hcr, hcase⟩ := scan_frame_elim h
  have hce : ce < buf.length := (scan_frame_bounds h).2
  have htake : (buf ++ ext).take ce = buf.take ce :=
    List.take_append_of_le_length (le_of_lt hce)
  have hf' : findByteFrom isWsByte (buf ++ ext) 0 = some ce := by
    rw [findByteFrom_zero] at hf ⊢
    exact findByte_append_of_some ext hf
  have hcrext : ∀ s q, s ≤ buf.length → findCrlfFrom buf s = some q →
      findCrlfFrom (buf ++ ext) s = some q := by
    intro s q hs hq
    rw [findCrlfFrom] at hq ⊢
    rw [List.drop_append_of_le_length hs]
    cases hk : findCrlf (buf.drop s) with
    | none => rw [hk] at hq; simp at hq
    | some k =>
      rw [hk] at hq
      rw [findCrlf_append_of_some ext hk]
      exact hq
  have hbne : buf ++ ext ≠ [] := by
    cases buf with
    | nil => exact absurd rfl hb
    | cons a t => simp
  refine scan_frame_intro hbne hf' (by rw [htake]; exact hex) ?_
  refine ⟨ph, hcrext ce ph (le_of_lt hce) hcr, ?_⟩
  rcases hcase with ⟨hpm, he⟩ | ⟨hpm, q, hq, he⟩
  · exact Or.inl ⟨by rw [htake]; exact hpm, he⟩
  · have hph2 : ph + 2 ≤ buf.length := findCrlfFrom_bound hcr
    exact Or.inr ⟨by rw [htake]; exact hpm, q, hcrext (ph + 2) q hph2 hq, he⟩

/-- Converse of `findByte_eq_none`: a missed scan means no byte hits. -/
theorem findByte_none_mem {p : Nat → Bool} : ∀ {l : ByteStr},
    findByte p l = none → ∀ b ∈ l, p b = false := by
  intro l
  induction l with
  | nil => intro _ b hb; simp at hb
  | cons x t ih =>
    intro h b hb
    rw [findByte] at h
    by_cases hx : p x = true
    · rw [if_pos hx] at h; exact Option.noConfusion h
    · rw [if_neg hx] at h
      have ht : findByte p t = none := by
        cases htv : findByte p t
        · rfl
        · rw [htv] at h; simp at h
      rcases List.mem_cons.mp hb with rfl | hbt
      · simpa using hx
      · exact ih ht b hbt

/-- A scan that asks for more preserves the cursor invariant: the new
cursor stays inside the buffer and skips only whitespace-free bytes. -/
theorem scan_needMore_inv {ni : Nat} {buf : ByteStr} {ni' : Nat}
    (hle : ni ≤ buf.length)
    (hws : ∀ b ∈ buf.take ni, isWsByte b = false)
    (h : OpCodec.scan ni buf = .needMore ni') :
    ni' ≤ buf.length ∧ ∀ b ∈ buf.take ni', isWsByte b = false := by
  rw [OpCodec.scan] at h
  by_cases hb : buf = []
  · rw [if_pos hb] at h
    have : ni = ni' := by simpa using h
    subst this
    exact ⟨hle, hws⟩
  · rw [if_neg hb] at h
    cases hfw : findByteFrom isWsByte buf ni with
    | none =>
      rw [hfw] at h
      dsimp only at h
      have hlen : ni' = buf.length := by
        have := h
        rw [ScanRes.needMore.injEq] at this
        omega
      subst hlen
      refine ⟨Nat.le_refl _, ?_⟩
      rw [List.take_length]
      intro b hbm
      rw [findByteFrom] at hfw
      have hnone : findByte isWsByte (buf.drop ni) = none := by
        cases hk : findByte isWsByte (buf.drop ni)
        · rfl
        · rw [hk] at hfw; simp at hfw
      have hsplit := List.take_append_drop ni buf
      rw [← hsplit] at hbm
      rcases List.mem_append.mp hbm with hLeft | hRight
      · exact hws b hLeft
      · exact findByte_none_mem hnone b hRight
    | some ce =>
      rw [hfw] at h
      dsimp only at h
      by_cases hex : Op.command_exists (buf.take ce) = true
      · rw [if_neg (by simp [hex])] at h
        cases hcr : findCrlfFrom buf ce with
        | none =>
          rw [hcr] at h
          have : ni = ni' := by simpa using h
          subst this
          exact ⟨hle, hws⟩
        | some ph =>
          rw [hcr] at h
          dsimp only at h
          by_cases hpm : buf.take ce = pubName ∨ buf.take ce = msgName
          · rw [if_pos hpm] at h
            cases hq : findCrlfFrom buf (ph + 2) with
            | none =>
              rw [hq] at h
              have : ni = ni' := by simpa using h
              subst this
              exact ⟨hle, hws⟩
            | some q => rw [hq] at h; simp at h
          · rw [if_neg hpm] at h
            simp at h
      · rw [if_pos (by simp [hex])] at h
        have : ni = ni' := by simpa using h
        subst this
        exact ⟨hle, hws⟩

/-- Decomposition of a whole-buffer decode that yields an item and
consumes everything. -/
theorem decode_valid_elim {b : ByteStr} {op : Op}
    (hval : OpCodec.decode ⟨0⟩ b = (⟨0⟩, [], .item op)) :
    ∃ ce ep, OpCodec.scan 0 b = .frame ce ep ∧
      Op.from_bytes (b.take ep) ce = .ok op ∧ b.drop ep = [] := by
  cases hscan : OpCodec.scan 0 b with
  | needMore ni' =>
    rw [OpCodec.decode, show (⟨0⟩ : OpCodec).next_index = 0 from rfl,
      hscan] at hval
    simp at hval
  | frame ce ep =>
    rw [decode_of_scan_frame hscan] at hval
    cases hfb : Op.from_bytes (b.take ep) ce with
    | ok o =>
      rw [hfb] at hval
      have h2 : b.drop ep = [] := congrArg (fun t => t.2.1) hval
      have h3 : DecodeOut.item o = DecodeOut.item op :=
        congrArg (fun t => t.2.2) hval
      rw [DecodeOut.item.injEq] at h3
      subst h3
      exact ⟨ce, ep, rfl, hfb, h2⟩
    | error e =>
      rw [hfb] at hval
      have h3 : DecodeOut.fail e = DecodeOut.item op :=
        congrArg (fun t => t.2.2) hval
      exact absurd h3 (by simp)

/-- Any strict front part of a valid single-command buffer scans to
"need more": the codec cannot find a frame boundary early, else the
whole-buffer decode could not have consumed every byte. -/
theorem scan_front_needMore {b : ByteStr} {op : Op}
    (hval : OpCodec.decode ⟨0⟩ b = (⟨0⟩, [], .item op))
    {pfx ext : ByteStr} (hb : pfx ++ ext = b) (hext : ext ≠ [])
    {ni : Nat} (hle : ni ≤ pfx.length)
    (hws : ∀ x ∈ pfx.take ni, isWsByte x = false) :
    ∃ ni', OpCodec.scan ni pfx = .needMore ni' := by
  cases hscan : OpCodec.scan ni pfx with
  | needMore ni' => exact ⟨ni', rfl⟩
  | frame ce ep =>
    exfalso
    have h0 : OpCodec.scan 0 pfx = .frame ce ep :=
      (scan_inv_frame_iff hle hws).mp hscan
    have hb0 : OpCodec.scan 0 b = .frame ce ep := by
      rw [← hb]
      exact scan_frame_append h0
    have hep : ep ≤ pfx.length := (scan_frame_bounds h0).1
    obtain ⟨ce', ep', hscan', _, hdrop⟩ := decode_valid_elim hval
    rw [hb0] at hscan'
    rw [ScanRes.frame.injEq] at hscan'
    obtain ⟨rfl, rfl⟩ := hscan'
    have hble : b.length ≤ ep := List.drop_eq_nil_iff.mp hdrop
    have hlen : b.length = pfx.length + ext.length := by
      rw [← hb]; simp
    have hextpos : 0 < ext.length := List.length_pos.mpr hext
    omega

/-- Feeding the remaining chunks of a valid command: every call before
the last returns "need more", the last returns the decoded item. -/
theorem feed_go {b : ByteStr} {op : Op}
    (hval : OpCodec.decode ⟨0⟩ b = (⟨0⟩, [], .item op)) :
    ∀ (chunks : List ByteStr) (done : ByteStr) (ni : Nat),
      done ++ chunks.flatten = b → chunks ≠ [] →
      (∀ ck ∈ chunks, ck ≠ []) →
      ni ≤ done.length → (∀ x ∈ done.take ni, isWsByte x = false) →
      OpCodec.feed ⟨ni⟩ done chunks =
        List.replicate (chunks.length - 1) .needMore ++ [.item op] := by
  intro chunks
  induction chunks with
  | nil => intro done ni _ hne _ _ _; exact absurd rfl hne
  | cons ck cks ih =>
    intro done ni hjoin hne hnee hle hws
    have hle1 : ni ≤ (done ++ ck).length := by simp; omega
    have hws1 : ∀ x ∈ (done ++ ck).take ni, isWsByte x = false := by
      rw [List.take_append_of_le_length hle]
      exact hws
    cases cks with
    | nil =>
      have hb : done ++ ck = b := by simpa using hjoin
      obtain ⟨ce, ep, hscan0, hfb, hdrop⟩ := decode_valid_elim hval
      have hscanni : OpCodec.scan ni b = .frame ce ep := by
        refine (scan_inv_frame_iff ?_ ?_).mpr hscan0
        · rw [← hb]; simp; omega
        · rw [← hb, List.take_append_of_le_length hle]; exact hws
      rw [OpCodec.feed, hb]
      rw [show OpCodec.decode ⟨ni⟩ b =
          (⟨0⟩, b.drop ep, .item op) from by
        rw [OpCodec.decode, show (⟨ni⟩ : OpCodec).next_index = ni from rfl,
          hscanni]
        dsimp only
        rw [hfb]]
      simp [OpCodec.feed]
    | cons ck2 cks2 =>
      have hfront : (done ++ ck) ++ (ck2 :: cks2).flatten = b := by
        rw [← hjoin]
        simp
      have hextne : (ck2 :: cks2).flatten ≠ [] := by
        intro hnil
        rw [List.flatten_cons] at hnil
        exact hnee ck2 (by simp) (List.append_eq_nil.mp hnil).1
      obtain ⟨ni', hscanNM⟩ :=
        scan_front_needMore hval hfront hextne hle1 hws1
      have hinv := scan_needMore_inv hle1 hws1 hscanNM
      rw [OpCodec.feed]
      rw [show OpCodec.decode ⟨ni⟩ (done ++ ck) =
          (⟨ni'⟩, done ++ ck, .needMore) from by
        rw [OpCodec.decode, show (⟨ni⟩ : OpCodec).next_index = ni from rfl,
          hscanNM]]
      have hrec := ih (done ++ ck) ni' hfront (by simp)
        (fun c hc => hnee c (by simp [hc])) hinv.1 hinv.2
      rw [hrec]
      simp [List.replicate_succ]

/-- C4: a valid single-command byte string `b` — one the codec decodes
whole into an item, consuming every byte — fed to the codec in any
sequence of non-empty consecutive chunks produces "need more" on every
call but the last, and the same decoded variant on the last; and the
decode of every strict front part of `b` is "need more" (no item, no
error). -/
theorem c4_chunked_decode (b : ByteStr) (op : Op) (chunks : List ByteStr)
    (hval : OpCodec.decode ⟨0⟩ b = (⟨0⟩, [], .item op))
    (hjoin : chunks.flatten = b)
    (hnee : ∀ ck ∈ chunks, ck ≠ []) :
    OpCodec.feed ⟨0⟩ [] chunks =
      List.replicate (chunks.length - 1) .needMore ++ [.item op] ∧
    (∀ pfx ext : ByteStr, pfx ++ ext = b → ext ≠ [] →
      (OpCodec.decode ⟨0⟩ pfx).2.2 = .needMore) := by
  constructor
  · have hbne : b ≠ [] := by
      intro h
      subst h
      rw [show OpCodec.decode ⟨0⟩ [] = (⟨0⟩, [], .needMore) from rfl] at hval
      simp at hval
    have hcne : chunks ≠ [] := by
      intro h
      rw [h] at hjoin
      exact hbne (by simpa using hjoin.symm)
    exact feed_go hval chunks [] 0 (by simpa using hjoin) hcne hnee
      (by simp) (by simp)
  · intro pfx ext hpe hext
    obtain ⟨ni', hnm⟩ := scan_front_needMore hval hpe hext (Nat.zero_le _)
      (by simp)
    rw [OpCodec.decode, show (⟨0⟩ : OpCodec).next_index = 0 from rfl, hnm]

/-- Witness for C4: `PING\r\n` fed as the chunks `PI`, `NG\r`, `\n`
yields need-more, need-more, then the PING item; and its 3-byte front
part decodes to need-more. -/
theorem c4_chunked_decode_witness :
    OpCodec.decode ⟨0⟩ [80, 73, 78, 71, 13, 10] =
      (⟨0⟩, [], .item .PING) ∧
    OpCodec.feed ⟨0⟩ [] [[80, 73], [78, 71, 13], [10]] =
      List.replicate 2 .needMore ++ [.item .PING] ∧
    (OpCodec.decode ⟨0⟩ [80, 73, 78]).2.2 = .needMore := by
  refine ⟨by decide, ?_, ?_⟩
  · exact (c4_chunked_decode [80, 73, 78, 71, 13, 10] .PING
      [[80, 73], [78, 71, 13], [10]] (by decide) (by decide)
      (by decide)).1
  · exact (c4_chunked_decode [80, 73, 78, 71, 13, 10] .PING
      [[80, 73], [78, 71, 13], [10]] (by decide) (by decide)
      (by decide)).2 [80, 73, 78] [71, 13, 10] (by decide) (by decide)

end Nitox
